import Mathlib

/-!
Verification of the facet service-lifecycle library.

The development shallowly embeds the lifecycle coordinator of the
repository (src/facet/asyncio.py `AsyncioServiceMixin`, the legacy
flat-module facet.py `ServiceMixin`, and src/facet/blocking.py
`BlockingServiceMixin`) as fuel-indexed state-transition functions over a
world of service nodes.

Modelling conventions:

* A node is identified by a `Nat`.  Its mutable instance state
  (`__running`, `__dependents`, `__exit_point`, `__tasks`, plus the
  observation counters that the repository's own tests attach to hooks:
  `start_count` / `stop_count` / `started` / `stopped`) lives in
  `NodeState`; the class-level configuration (the `dependencies` property,
  the behaviour of the overridable user `start()` / `stop()` hooks, the
  `graceful_shutdown_timeout` property and the abstract duration of the
  real-shutdown path) lives in `NodeCfg`, supplied as a map
  `cfg : Nat → NodeCfg`.

* asyncio `Future` objects are a store `futs : Nat → FutState` indexed by
  an allocator `nextFut`; a node's `__exit_point` holds a future id, so
  the cross-instance sharing performed by the exit-point propagation in
  `__start_dependencies` is sharing of the id.

* Exceptions are the explicit error component of results:
  `Option (World × Option PyErr)` — `none` is fuel exhaustion (which in
  the source corresponds to non-termination: an infinite recursion or a
  dead-locked re-entrant lock acquisition), `some (w, none)` is normal
  return, `some (w, some e)` a raised exception.

* The event loop is modelled at the granularity at which member bodies of
  a dependency group are atomic between `await` points: `create_task`
  schedules all members of a group in declaration order and each runs to
  completion (or to its raise) in that order before `gather`'s first
  failure is observed, so a group start runs every member and reports the
  first failure in list order.  The cancellation behaviour of
  `__wait_with_cancellation_on_fail` on still-outstanding timed tasks is
  modelled separately and explicitly over abstract timed tasks (`ATask`).

* `wait_for(..., timeout=...)` in `__stop` is modelled by comparing the
  abstract duration of the node's real-shutdown path (`shutdownDur` in
  `NodeCfg`) against `graceful_shutdown_timeout`; on timeout the stop call
  returns `PyErr.timeoutError` and the state reflects the one effect that
  is guaranteed to have happened synchronously before the first await,
  namely `__running = False`.

* The start/stop `Lock`s serialize concurrent callers; in this sequential
  interleaving model an acquisition never blocks, so the locks have no
  state.  Re-entrant acquisition (a dependency cycle) dead-locks in the
  source and exhausts fuel in the model.
-/

/-- Python exception values that the embedded code can raise or store. -/
inductive PyErr : Type
  | userStart : Nat → PyErr     -- raised by node n's user start() hook
  | userStop : Nat → PyErr      -- raised by node n's user stop() hook
  | taskErr : Nat → PyErr       -- failure of an abstract background task
  | timeoutError : PyErr        -- asyncio.TimeoutError from wait_for
  | invalidState : PyErr        -- asyncio.InvalidStateError
  | internal : PyErr            -- AsyncioServiceMixinInternalError / AttributeError
  deriving DecidableEq, Repr

/-- State of one asyncio `Future`: pending, resolved with a result
(`set_result`), or resolved with an exception (`set_exception`). -/
inductive FutState : Type
  | pending : FutState
  | resolvedOk : FutState
  | exc : PyErr → FutState
  deriving DecidableEq, Repr

/-- `future.done()`. -/
def FutState.done : FutState → Bool
  | .pending => false
  | _ => true

/-- Per-instance mutable state of a service node, together with the
observation fields the repository's tests attach to the user hooks
(`start_count`/`started` are incremented/set by the hook bodies in
tests/test_asyncio.py, so the model's hook execution maintains them). -/
structure NodeState : Type where
  running : Bool := false            -- __running
  dependents : Int := 0              -- __dependents
  exitPoint : Option Nat := none     -- __exit_point (future id)
  tasksInit : Bool := false          -- __tasks is not None
  tasks : List Nat := []             -- ids of tracked, not-yet-done tasks
  cancelledCount : Nat := 0          -- how many tracked tasks were cancelled
  startCalls : Nat := 0              -- user start() hook invocations
  stopCalls : Nat := 0               -- user stop() hook invocations
  started : Bool := false            -- a user start() hook ran to completion
  stopped : Bool := false            -- a user stop() hook ran to completion
  deriving DecidableEq, Repr

/-- Class-level configuration of a node: the `dependencies` property
(groups already normalised to lists — the source wraps a bare mixin into a
singleton list), the failure schedule of the user hooks (call number `i`
raises iff the predicate holds at `i`), the `graceful_shutdown_timeout`
property, and the abstract total duration of the node's real-shutdown path
used by the `wait_for` timeout model. -/
structure NodeCfg : Type where
  deps : List (List Nat) := []
  startFailsAt : Nat → Bool := fun _ => false
  stopFailsAt : Nat → Bool := fun _ => false
  gst : Nat := 10
  shutdownDur : Nat := 0

/-- Hook invocation events, recorded in declaration order. -/
inductive Ev : Type
  | startHook : Nat → Ev
  | stopHook : Nat → Ev
  deriving DecidableEq, Repr

/-- The world: per-node states, the future store with its allocator, and
the log of user-hook invocations. -/
structure World : Type where
  nodes : Nat → NodeState
  futs : Nat → FutState
  nextFut : Nat
  log : List Ev

/-- The world in which every node is fresh and no future exists. -/
def W0 : World :=
  { nodes := fun _ => {}, futs := fun _ => .pending, nextFut := 0, log := [] }

/-- Point update of one node's state. -/
def updNode (w : World) (n : Nat) (f : NodeState → NodeState) : World :=
  { w with nodes := fun m => if m = n then f (w.nodes m) else w.nodes m }

/-- `self.__dependents += 1` (the first action of both `__start`s). -/
def bumpDep (w : World) (n : Nat) : World :=
  updNode w n fun s => { s with dependents := s.dependents + 1 }

/-- `self.__dependents -= 1` (the first action of both `__stop`s). -/
def decDep (w : World) (n : Nat) : World :=
  updNode w n fun s => { s with dependents := s.dependents - 1 }

/-- `if self.__exit_point is None: self.__exit_point = Future()` —
lazily allocate the node's exit-point future. -/
def ensureExit (w : World) (n : Nat) : World :=
  match (w.nodes n).exitPoint with
  | some _ => w
  | none =>
      let fid := w.nextFut
      { updNode w n (fun s => { s with exitPoint := some fid }) with
        nextFut := w.nextFut + 1 }

/-- Run node `n`'s user `start()` hook: the test subclasses bump their
counter first and then possibly raise, so the call counter always
advances; `started` is set only when the hook body completes. -/
def runStartHook (cfg : Nat → NodeCfg) (w : World) (n : Nat) :
    World × Option PyErr :=
  let s := w.nodes n
  let w := { updNode w n (fun s => { s with startCalls := s.startCalls + 1 }) with
             log := w.log ++ [Ev.startHook n] }
  if (cfg n).startFailsAt s.startCalls then
    (w, some (.userStart n))
  else
    (updNode w n (fun s => { s with started := true }), none)

/-- Run node `n`'s user `stop()` hook, symmetrically. -/
def runStopHook (cfg : Nat → NodeCfg) (w : World) (n : Nat) :
    World × Option PyErr :=
  let s := w.nodes n
  let w := { updNode w n (fun s => { s with stopCalls := s.stopCalls + 1 }) with
             log := w.log ++ [Ev.stopHook n] }
  if (cfg n).stopFailsAt s.stopCalls then
    (w, some (.userStop n))
  else
    (updNode w n (fun s => { s with stopped := true }), none)

/-- Propagate the parent's exit point onto a dependency:
`setattr(dependency, "_AsyncioServiceMixin__exit_point", ...)` /
`dependency._ServiceMixin__exit_point = self.__exit_point`. -/
def setExit (w : World) (n : Nat) (fid : Nat) : World :=
  updNode w n fun s => { s with exitPoint := some fid }

/-- Cancel every tracked background task of node `n` and wait for them
(the first phase of `__stop_dependencies`): each not-yet-done task is
cancelled once, acknowledges the cancellation, and its done-callback
removes it from the tracked set without propagating a failure. -/
def cancelTasks (w : World) (n : Nat) : World :=
  updNode w n fun s =>
    { s with tasks := [], cancelledCount := s.cancelledCount + s.tasks.length }

mutual

/-- `AsyncioServiceMixin.__start` (asyncio.py lines 67-83) and, with
`lg = true`, the legacy `ServiceMixin.__start` (facet.py lines 60-76).
The single difference between the two sources: the current variant runs
`__start_dependencies` inside the `try`, so a dependency failure also
triggers the `__stop_dependencies` rollback, while the legacy variant
awaits `__start_dependencies` before the `try` and only guards the user
hook. -/
def startA (cfg : Nat → NodeCfg) (lg : Bool) :
    Nat → World → Nat → Option (World × Option PyErr)
  | 0, _, _ => none
  | f + 1, w, n =>
    let w1 := bumpDep w n
    if (w1.nodes n).running then
      some (w1, none)
    else
      let w2 := ensureExit w1 n
      if lg then
        match startDeps cfg lg f w2 n with
        | none => none
        | some (w3, some e) => some (w3, some e)   -- legacy: no rollback here
        | some (w3, none) =>
          match runStartHook cfg w3 n with
          | (w4, none) =>
              some (updNode w4 n (fun s => { s with running := true }), none)
          | (w4, some e) =>
            match stopDeps cfg lg f w4 n with
            | none => none
            | some (w5, some e2) => some (w5, some e2)
            | some (w5, none) => some (w5, some e)
      else
        match startDeps cfg lg f w2 n with
        | none => none
        | some (w3, some e) =>
          match stopDeps cfg lg f w3 n with
          | none => none
          | some (w4, some e2) => some (w4, some e2)
          | some (w4, none) => some (w4, some e)
        | some (w3, none) =>
          match runStartHook cfg w3 n with
          | (w4, none) =>
              some (updNode w4 n (fun s => { s with running := true }), none)
          | (w4, some e) =>
            match stopDeps cfg lg f w4 n with
            | none => none
            | some (w5, some e2) => some (w5, some e2)
            | some (w5, none) => some (w5, some e)

termination_by structural f _ _ => f

/-- `__start_dependencies` (asyncio.py lines 38-49): reset the tracked
task set to empty, then bring the declared groups up in declaration
order, aborting at the first group failure. -/
def startDeps (cfg : Nat → NodeCfg) (lg : Bool) :
    Nat → World → Nat → Option (World × Option PyErr)
  | 0, _, _ => none
  | f + 1, w, n =>
    let w1 := updNode w n fun s => { s with tasksInit := true, tasks := [] }
    match (w1.nodes n).exitPoint with
    | none => some (w1, some .internal)   -- __ensure_exit_point
    | some fid => startGroups cfg lg f w1 fid (cfg n).deps

termination_by structural f _ _ => f

/-- The per-group loop of `__start_dependencies`: groups strictly in
declaration order; a failing group aborts the remaining groups. -/
def startGroups (cfg : Nat → NodeCfg) (lg : Bool) :
    Nat → World → Nat → List (List Nat) → Option (World × Option PyErr)
  | 0, _, _, _ => none
  | _ + 1, w, _, [] => some (w, none)
  | f + 1, w, fid, g :: gs =>
    match startGroup cfg lg f w fid g with
    | none => none
    | some (w1, some e) => some (w1, some e)
    | some (w1, none) => startGroups cfg lg f w1 fid gs

termination_by structural f _ _ _ => f

/-- One group's concurrent start: the creation loop first propagates the
parent's exit point onto every member, then every member's `__start` task
runs (bodies are atomic in this model, so each runs to completion or to
its raise in creation order even when an earlier member failed), and
`gather` inside `__wait_with_cancellation_on_fail` reports the first
captured failure. -/
def startGroup (cfg : Nat → NodeCfg) (lg : Bool) :
    Nat → World → Nat → List Nat → Option (World × Option PyErr)
  | 0, _, _, _ => none
  | f + 1, w, fid, ms =>
    startGroupRun cfg lg f (ms.foldl (fun w m => setExit w m fid) w) ms none

termination_by structural f _ _ _ => f

/-- Run the already-created member start tasks in creation order,
remembering the first failure. -/
def startGroupRun (cfg : Nat → NodeCfg) (lg : Bool) :
    Nat → World → List Nat → Option PyErr → Option (World × Option PyErr)
  | 0, _, _, _ => none
  | _ + 1, w, [], acc => some (w, acc)
  | f + 1, w, m :: ms, acc =>
    match startA cfg lg f w m with
    | none => none
    | some (w1, r) => startGroupRun cfg lg f w1 ms (acc.orElse fun _ => r)

termination_by structural f _ _ _ => f

/-- `AsyncioServiceMixin.__stop` (asyncio.py lines 85-91): decrement the
dependents count; perform real shutdown — bounded by
`graceful_shutdown_timeout` via `wait_for` — only when the decremented
count is exactly zero and the node is running.  On timeout the only
effect modelled is the one that happened synchronously before the first
await of `__stop_two_steps`: `__running = False`. -/
def stopA (cfg : Nat → NodeCfg) (lg : Bool) :
    Nat → World → Nat → Option (World × Option PyErr)
  | 0, _, _ => none
  | f + 1, w, n =>
    let w1 := decDep w n
    if (w1.nodes n).dependents = 0 ∧ (w1.nodes n).running then
      if (cfg n).gst < (cfg n).shutdownDur then
        some (updNode w1 n (fun s => { s with running := false }),
              some .timeoutError)
      else
        stopTwoSteps cfg lg f w1 n
    else
      some (w1, none)

termination_by structural f _ _ => f

/-- `__stop_two_steps` (asyncio.py lines 93-99): flip `__running` to
false, run the user `stop()` hook, and — in a `finally`, hence regardless
of a hook failure — run `__stop_dependencies`; only when neither raised
is `self.__exit_point = None` reached (the clearing line sits after the
`try/finally`, so any raise skips it). -/
def stopTwoSteps (cfg : Nat → NodeCfg) (lg : Bool) :
    Nat → World → Nat → Option (World × Option PyErr)
  | 0, _, _ => none
  | f + 1, w, n =>
    let w1 := updNode w n fun s => { s with running := false }
    match runStopHook cfg w1 n with
    | (w2, none) =>
      match stopDeps cfg lg f w2 n with
      | none => none
      | some (w3, some e2) => some (w3, some e2)
      | some (w3, none) =>
          some (updNode w3 n (fun s => { s with exitPoint := none }), none)
    | (w2, some e) =>
      match stopDeps cfg lg f w2 n with
      | none => none
      | some (w3, some e2) => some (w3, some e2)  -- finally-clause raise wins
      | some (w3, none) => some (w3, some e)      -- original hook failure
  -- a raise on either path skips the exit-point clearing

termination_by structural f _ _ => f

/-- `__stop_dependencies` (asyncio.py lines 51-65): cancel and await every
tracked background task, then bring the declared groups down in reverse
declaration order.  The current variant reads the task set through
`__ensure_tasks`, which raises when `__tasks` was never initialised; the
legacy variant's `__tasks` defaults to an empty container. -/
def stopDeps (cfg : Nat → NodeCfg) (lg : Bool) :
    Nat → World → Nat → Option (World × Option PyErr)
  | 0, _, _ => none
  | f + 1, w, n =>
    if ¬lg ∧ ¬(w.nodes n).tasksInit then
      some (w, some .internal)   -- __ensure_tasks
    else
      stopGroups cfg lg f (cancelTasks w n) (cfg n).deps.reverse

termination_by structural f _ _ => f

/-- The per-group loop of `__stop_dependencies` over the reversed group
list; a failing group aborts the remaining (earlier-declared) groups. -/
def stopGroups (cfg : Nat → NodeCfg) (lg : Bool) :
    Nat → World → List (List Nat) → Option (World × Option PyErr)
  | 0, _, _ => none
  | _ + 1, w, [] => some (w, none)
  | f + 1, w, g :: gs =>
    match stopGroup cfg lg f w g with
    | none => none
    | some (w1, some e) => some (w1, some e)
    | some (w1, none) => stopGroups cfg lg f w1 gs

termination_by structural f _ _ => f

/-- One group's concurrent stop: every member's `__stop` task runs to
completion in creation order, first failure reported. -/
def stopGroup (cfg : Nat → NodeCfg) (lg : Bool) :
    Nat → World → List Nat → Option (World × Option PyErr)
  | 0, _, _ => none
  | _ + 1, w, [] => some (w, none)
  | f + 1, w, m :: ms =>
    match stopA cfg lg f w m with
    | none => none
    | some (w1, r) =>
      match stopGroup cfg lg f w1 ms with
      | none => none
      | some (w2, r2) => some (w2, (r.orElse fun _ => r2))

termination_by structural f _ _ => f

end

/-! ### The blocking variant (src/facet/blocking.py)

`BlockingServiceMixin` shares the dependents-count protocol but runs
everything synchronously on one thread: groups are plain nested loops (a
raise aborts the loop), there are no tracked tasks, no exit point, no
locks and no shutdown timeout.  It reuses `World`, using only the
`running`/`dependents` fields and the hook observation fields. -/

mutual

/-- `BlockingServiceMixin.__start` (blocking.py lines 24-35): increment
the dependents count, return if already running, otherwise run
`__start_dependencies` and the user `start()` hook inside one `try`; on
either failing, run `__stop_dependencies` and re-raise. -/
def startB (cfg : Nat → NodeCfg) :
    Nat → World → Nat → Option (World × Option PyErr)
  | 0, _, _ => none
  | f + 1, w, n =>
    let w1 := bumpDep w n
    if (w1.nodes n).running then
      some (w1, none)
    else
      match startBGroups cfg f w1 (cfg n).deps with
      | none => none
      | some (w2, some e) =>
        match stopBGroups cfg f w2 (cfg n).deps.reverse with
        | none => none
        | some (w3, some e2) => some (w3, some e2)
        | some (w3, none) => some (w3, some e)
      | some (w2, none) =>
        match runStartHook cfg w2 n with
        | (w3, none) =>
            some (updNode w3 n (fun s => { s with running := true }), none)
        | (w3, some e) =>
          match stopBGroups cfg f w3 (cfg n).deps.reverse with
          | none => none
          | some (w4, some e2) => some (w4, some e2)
          | some (w4, none) => some (w4, some e)

termination_by structural f _ _ => f

/-- `BlockingServiceMixin.__start_dependencies` (blocking.py lines
10-15): a plain nested loop over the declared groups, so processing is
strictly sequential and a raise aborts all remaining members and
groups. -/
def startBGroups (cfg : Nat → NodeCfg) :
    Nat → World → List (List Nat) → Option (World × Option PyErr)
  | 0, _, _ => none
  | _ + 1, w, [] => some (w, none)
  | f + 1, w, g :: gs =>
    match startBGroup cfg f w g with
    | none => none
    | some (w1, some e) => some (w1, some e)
    | some (w1, none) => startBGroups cfg f w1 gs

termination_by structural f _ _ => f

/-- One group of the blocking start loop: members strictly in order,
first raise aborts the rest. -/
def startBGroup (cfg : Nat → NodeCfg) :
    Nat → World → List Nat → Option (World × Option PyErr)
  | 0, _, _ => none
  | _ + 1, w, [] => some (w, none)
  | f + 1, w, m :: ms =>
    match startB cfg f w m with
    | none => none
    | some (w1, some e) => some (w1, some e)
    | some (w1, none) => startBGroup cfg f w1 ms

termination_by structural f _ _ => f

/-- `BlockingServiceMixin.__stop` (blocking.py lines 37-45): decrement
the dependents count; return immediately when the decremented count is
still positive or the node is not running; otherwise flip `__running`,
run the user `stop()` hook and — in a `finally` — `__stop_dependencies`. -/
def stopB (cfg : Nat → NodeCfg) :
    Nat → World → Nat → Option (World × Option PyErr)
  | 0, _, _ => none
  | f + 1, w, n =>
    let w1 := decDep w n
    if 0 < (w1.nodes n).dependents ∨ ¬(w1.nodes n).running then
      some (w1, none)
    else
      let w2 := updNode w1 n fun s => { s with running := false }
      match runStopHook cfg w2 n with
      | (w3, none) => stopBGroups cfg f w3 (cfg n).deps.reverse
      | (w3, some e) =>
        match stopBGroups cfg f w3 (cfg n).deps.reverse with
        | none => none
        | some (w4, some e2) => some (w4, some e2)
        | some (w4, none) => some (w4, some e)

termination_by structural f _ _ => f

/-- `BlockingServiceMixin.__stop_dependencies` (blocking.py lines 17-22)
over the reversed group list. -/
def stopBGroups (cfg : Nat → NodeCfg) :
    Nat → World → List (List Nat) → Option (World × Option PyErr)
  | 0, _, _ => none
  | _ + 1, w, [] => some (w, none)
  | f + 1, w, g :: gs =>
    match stopBGroup cfg f w g with
    | none => none
    | some (w1, some e) => some (w1, some e)
    | some (w1, none) => stopBGroups cfg f w1 gs

termination_by structural f _ _ => f

/-- One group of the blocking stop loop. -/
def stopBGroup (cfg : Nat → NodeCfg) :
    Nat → World → List Nat → Option (World × Option PyErr)
  | 0, _, _ => none
  | _ + 1, w, [] => some (w, none)
  | f + 1, w, m :: ms =>
    match stopB cfg f w m with
    | none => none
    | some (w1, some e) => some (w1, some e)
    | some (w1, none) => stopBGroup cfg f w1 ms

termination_by structural f _ _ => f

end

/-! ### Background-task completion callbacks -/

/-- The terminal outcome a `Task` presents to its done-callback. -/
inductive TOutcome : Type
  | cancelled : TOutcome
  | ok : TOutcome
  | failed : PyErr → TOutcome
  deriving DecidableEq, Repr

/-- `AsyncioServiceMixin.__task_callback` (asyncio.py lines 108-115):
discard the task from the tracked set regardless of outcome (through
`__ensure_tasks`, which raises when `__tasks` is uninitialised); a
cancelled task propagates nothing; a failed task resolves the exit point
(read through `__ensure_exit_point`) with its exception only when the
exit point is not yet done.  The result carries the updated tracked set
and exit-point future, or the error the callback itself raised. -/
def taskCallback (tasks : Option (List Nat)) (tid : Nat) (out : TOutcome)
    (exit : Option FutState) : Except PyErr (List Nat × Option FutState) :=
  match tasks with
  | none => .error .internal
  | some ts =>
    let ts := ts.erase tid
    match out with
    | .cancelled => .ok (ts, exit)
    | .ok =>
      match exit with
      | none => .error .internal
      | some fut => .ok (ts, some fut)
    | .failed e =>
      match exit with
      | none => .error .internal
      | some fut =>
        if fut.done then .ok (ts, some fut) else .ok (ts, some (.exc e))

/-- The legacy `ServiceMixin.__task_callback` (facet.py lines 101-106):
never removes the task from the tracked list, and calls `set_exception`
on the exit point without checking `done()`, so a failure arriving on an
already-resolved future raises `InvalidStateError`. -/
def taskCallbackLegacy (tasks : List Nat) (_tid : Nat) (out : TOutcome)
    (exit : Option FutState) : Except PyErr (List Nat × Option FutState) :=
  match out with
  | .cancelled => .ok (tasks, exit)
  | .ok => .ok (tasks, exit)
  | .failed e =>
    match exit with
    | none => .error .internal
    | some fut =>
      if fut.done then .error .invalidState else .ok (tasks, some (.exc e))

/-! ### `wait()` -/

/-- What a call to `wait()` observes. -/
inductive WaitRes : Type
  | blocked : WaitRes           -- the awaited future is still pending
  | returned : WaitRes          -- the future resolved with a result
  | raised : PyErr → WaitRes    -- the future resolved with an exception
  deriving DecidableEq, Repr

/-- `AsyncioServiceMixin.wait` (asyncio.py lines 117-118): await the
node's exit-point future (`__ensure_exit_point` raises when it is
absent). -/
def waitA (w : World) (n : Nat) : WaitRes :=
  match (w.nodes n).exitPoint with
  | none => .raised .internal
  | some fid =>
    match w.futs fid with
    | .pending => .blocked
    | .resolvedOk => .returned
    | .exc e => .raised e

/-- Awaiting one concrete future — the position of a caller that entered
`wait()` earlier and therefore holds a reference to that future even if
the node's `__exit_point` attribute has since been reassigned. -/
def awaitFut (w : World) (fid : Nat) : WaitRes :=
  match w.futs fid with
  | .pending => .blocked
  | .resolvedOk => .returned
  | .exc e => .raised e

/-! ### `__wait_with_cancellation_on_fail` over abstract timed tasks

asyncio.py lines 20-26: `gather` the tasks; in a `finally`, cancel every
task and `wait` for all of them to settle.  To express the cancellation of
still-outstanding siblings, a member task is abstracted to the time `dur`
at which it would complete and the outcome `res` it would then produce
(`none` = returns, `some e` = raises `e`).  `gather` surfaces the
earliest failure (ties broken by creation order, the order the event loop
resumes them in); tasks already complete at that moment keep their own
outcome, tasks still outstanding are cancelled. -/

structure ATask : Type where
  dur : Nat
  res : Option PyErr
  deriving DecidableEq, Repr

/-- The terminal state a member task has settled in once
`__wait_with_cancellation_on_fail` returns or re-raises. -/
inductive TFinal : Type
  | completed : Option PyErr → TFinal
  | cancelled : TFinal
  deriving DecidableEq, Repr

/-- The completion time of the earliest failing task, if any fails. -/
def firstFailTime (ts : List ATask) : Option Nat :=
  (ts.filterMap fun t => if t.res.isSome then some t.dur else none).min?

/-- The first captured failure: among the earliest-failing tasks, the one
`gather`'s await observes first is the first in creation order. -/
def firstFailure (ts : List ATask) : Option PyErr :=
  match firstFailTime ts with
  | none => none
  | some tf =>
    match ts.find? fun t => t.res.isSome && t.dur = tf with
    | some t => t.res
    | none => none

/-- `__wait_with_cancellation_on_fail`: the settled states of all member
tasks and the failure it re-raises, if any.  With no failure every task
runs to completion; with a failure at time `tf`, tasks done by `tf` keep
their outcome and every still-outstanding task is cancelled, and only
after all have settled is the first captured failure re-raised. -/
def waitCancelOnFail (ts : List ATask) : List TFinal × Option PyErr :=
  match firstFailTime ts with
  | none => (ts.map fun t => .completed t.res, none)
  | some tf =>
      (ts.map fun t => if t.dur ≤ tf then .completed t.res else .cancelled,
       firstFailure ts)

/-! ### Frame properties of the asyncio interpreter

A node that is nobody's declared dependency (a *root*) is only ever
touched by operations invoked on it directly; the future store is never
written by start/stop at all (the only resolution point in the source is
`__task_callback`), and the hook log only grows.  These facts are proved
by one simultaneous induction over the mutual interpreter. -/

/-- `m` appears in no node's declared dependency groups: start/stop is
only ever invoked on it by its own top-level caller. -/
def NotADep (cfg : Nat → NodeCfg) (m : Nat) : Prop :=
  ∀ a g, g ∈ (cfg a).deps → m ∉ g

/-- Frame relation between a pre- and post-world of one interpreter
operation whose direct targets are over-approximated by `tgt`: the future
store is untouched, the log only grows, and every root node outside `tgt`
is untouched. -/
structure Pres (cfg : Nat → NodeCfg) (tgt : Nat → Prop) (w w' : World) :
    Prop where
  futs : w'.futs = w.futs
  log : ∃ L, w'.log = w.log ++ L
  nodes : ∀ m, NotADep cfg m → ¬ tgt m → w'.nodes m = w.nodes m

/-! ### Concrete scenarios

The worlds and configurations below replay the repository's own test
scenarios (tests/test_asyncio.py, tests/test_blocking.py) inside the
model; every node starts from the fresh world `W0`. -/

/-- The diamond of `test_diamond_dependencies`: `A = 0` depends on the
two singleton groups `[B1] = [1]` and `[B2] = [2]`, and both depend on
the shared `C = 3`. -/
def diamondCfg : Nat → NodeCfg
  | 0 => { deps := [[1], [2]] }
  | 1 => { deps := [[3]] }
  | 2 => { deps := [[3]] }
  | _ => {}

/-- Starting the diamond root. -/
def diamondStart : Option (World × Option PyErr) :=
  startA diamondCfg false 20 W0 0

/-- Starting, then stopping, the diamond root. -/
def diamondCycle : Option (World × Option PyErr) :=
  match diamondStart with
  | some (w, none) => stopA diamondCfg false 20 w 0
  | _ => none

/-- `test_start_failed_later`, with a third group that must never start:
root `0` declares the groups `[[1], [2], [3]]` where node `2`'s user
start hook always raises. -/
def rollbackCfg : Nat → NodeCfg
  | 0 => { deps := [[1], [2], [3]] }
  | 2 => { startFailsAt := fun _ => true }
  | _ => {}

/-- Starting the root over the current asyncio variant. -/
def rollbackRun : Option (World × Option PyErr) :=
  startA rollbackCfg false 20 W0 0

/-- The same start over the legacy flat-module variant. -/
def rollbackRunLegacy : Option (World × Option PyErr) :=
  startA rollbackCfg true 20 W0 0

/-- The same start over the blocking variant. -/
def rollbackRunBlocking : Option (World × Option PyErr) :=
  startB rollbackCfg 20 W0 0

/-- A root whose own user start hook raises, over one valid dependency:
the dependency must end up started-then-stopped. -/
def hookFailCfg : Nat → NodeCfg
  | 0 => { deps := [[1]], startFailsAt := fun _ => true }
  | _ => {}

/-- Starting the hook-failing root over the current asyncio variant. -/
def hookFailRun : Option (World × Option PyErr) :=
  startA hookFailCfg false 20 W0 0

/-- The same start over the legacy variant (whose rollback does fire for
a user-hook failure). -/
def hookFailRunLegacy : Option (World × Option PyErr) :=
  startA hookFailCfg true 20 W0 0

/-- `test_start_failed_parallel_later`: one parallel group `[[1, 2]]`
under root `0`, where member `1` fails to start. -/
def parallelCfg : Nat → NodeCfg
  | 0 => { deps := [[1, 2]] }
  | 1 => { startFailsAt := fun _ => true }
  | _ => {}

/-- Starting the root of the failing parallel group. -/
def parallelRun : Option (World × Option PyErr) :=
  startA parallelCfg false 20 W0 0

/-- A dependency-free node whose user start hook raises on the first
call only. -/
def flakyCfg : Nat → NodeCfg
  | 0 => { startFailsAt := fun i => i == 0 }
  | _ => {}

/-- First (failing) start of the flaky node. -/
def flakyRun1 : Option (World × Option PyErr) :=
  startA flakyCfg false 20 W0 0

/-- Second (successful) start, after the failed one. -/
def flakyRun2 : Option (World × Option PyErr) :=
  match flakyRun1 with
  | some (w, some _) => startA flakyCfg false 20 w 0
  | _ => none

/-- The single matching stop after the failed-then-successful starts. -/
def flakyRun3 : Option (World × Option PyErr) :=
  match flakyRun2 with
  | some (w, none) => stopA flakyCfg false 20 w 0
  | _ => none

/-- The same failed start / start / stop sequence over the blocking
variant. -/
def flakyRunB1 : Option (World × Option PyErr) :=
  startB flakyCfg 20 W0 0

/-- Blocking variant: second start. -/
def flakyRunB2 : Option (World × Option PyErr) :=
  match flakyRunB1 with
  | some (w, some _) => startB flakyCfg 20 w 0
  | _ => none

/-- Blocking variant: the single matching stop. -/
def flakyRunB3 : Option (World × Option PyErr) :=
  match flakyRunB2 with
  | some (w, none) => stopB flakyCfg 20 w 0
  | _ => none

/-- A node with one dependency whose own user stop hook always raises. -/
def stopFailCfg : Nat → NodeCfg
  | 0 => { deps := [[1]], stopFailsAt := fun _ => true }
  | _ => {}

/-- The started world of the stop-failing node, with two tracked
background tasks registered while it ran. -/
def stopFailWorld : Option World :=
  match startA stopFailCfg false 20 W0 0 with
  | some (w, none) => some (updNode w 0 fun s => { s with tasks := [5, 6] })
  | _ => none

/-- Stopping the stop-failing node. -/
def stopFailRun : Option (World × Option PyErr) :=
  match stopFailWorld with
  | some w => stopA stopFailCfg false 20 w 0
  | none => none

/-- The started stop-failing world itself (fresh world if the start
failed). -/
def stopFailW : World :=
  match stopFailWorld with
  | some w => w
  | none => W0

/-- A dependency-free node whose abstract real-shutdown duration (11)
exceeds its graceful-shutdown timeout (the default 10). -/
def slowCfg : Nat → NodeCfg
  | 0 => { shutdownDur := 11 }
  | _ => {}

/-- Start-then-stop of the slow-shutdown node. -/
def slowRun : Option (World × Option PyErr) :=
  match startA slowCfg false 20 W0 0 with
  | some (w, none) => stopA slowCfg false 20 w 0
  | _ => none

/-- The all-defaults configuration: every node is a no-op leaf. -/
def leafCfg : Nat → NodeCfg := fun _ => {}

/-- Starting a fresh leaf node. -/
def leafStart : Option (World × Option PyErr) :=
  startA leafCfg false 20 W0 0

/-- A clean start-then-stop cycle of the leaf node. -/
def leafCycle : Option (World × Option PyErr) :=
  match leafStart with
  | some (w, none) => stopA leafCfg false 20 w 0
  | _ => none

/-- A second holder acquires the already-running leaf node. -/
def holdStart2 : Option (World × Option PyErr) :=
  match leafStart with
  | some (w, none) => startA leafCfg false 20 w 0
  | _ => none

/-- The first of the two holders releases the shared node. -/
def holdRelease1 : Option (World × Option PyErr) :=
  match holdStart2 with
  | some (w, none) => stopA leafCfg false 20 w 0
  | _ => none

/-- The last holder releases the shared node. -/
def holdRelease2 : Option (World × Option PyErr) :=
  match holdRelease1 with
  | some (w, none) => stopA leafCfg false 20 w 0
  | _ => none

/-- A world consisting of one node that is already running with one
holder (used to exercise the idempotent-start path at a concrete
input). -/
def runningW : World :=
  updNode W0 0 fun s => { s with running := true, dependents := 1 }

/-- One running node held by two dependents. -/
def heldW : World :=
  updNode W0 0 fun s => { s with running := true, dependents := 2 }

/-- The post-world of a run (the fresh world if the run exhausted its
fuel). -/
def outW (r : Option (World × Option PyErr)) : World :=
  match r with
  | some (w, _) => w
  | none => W0

/-- The raised-error component of a run. -/
def outE (r : Option (World × Option PyErr)) : Option PyErr :=
  match r with
  | some (_, e) => e
  | none => none

theorem Pres.id (cfg : Nat → NodeCfg) (tgt : Nat → Prop) (w : World) :
    Pres cfg tgt w w :=
  ⟨rfl, ⟨[], by simp⟩, fun _ _ _ => rfl⟩

theorem Pres.trans {cfg : Nat → NodeCfg} {tgt : Nat → Prop} {w w' w'' : World}
    (h1 : Pres cfg tgt w w') (h2 : Pres cfg tgt w' w'') :
    Pres cfg tgt w w'' := by
  refine ⟨h2.futs.trans h1.futs, ?_, fun m hm ht => (h2.nodes m hm ht).trans (h1.nodes m hm ht)⟩
  obtain ⟨L1, hL1⟩ := h1.log
  obtain ⟨L2, hL2⟩ := h2.log
  exact ⟨L1 ++ L2, by simp [hL2, hL1]⟩

theorem Pres.mono {cfg : Nat → NodeCfg} {t t' : Nat → Prop} {w w' : World}
    (h : ∀ m, NotADep cfg m → ¬ t' m → ¬ t m)
    (hp : Pres cfg t w w') : Pres cfg t' w w' :=
  ⟨hp.futs, hp.log, fun m hm ht => hp.nodes m hm (h m hm ht)⟩

theorem pres_updNode (cfg : Nat → NodeCfg) (w : World) (n : Nat)
    (f : NodeState → NodeState) : Pres cfg (· = n) w (updNode w n f) := by
  refine ⟨rfl, ⟨[], by simp [updNode]⟩, fun m _ ht => ?_⟩
  simp only [updNode]
  simp [ht]

theorem pres_bumpDep (cfg : Nat → NodeCfg) (w : World) (n : Nat) :
    Pres cfg (· = n) w (bumpDep w n) := pres_updNode cfg w n _

theorem pres_decDep (cfg : Nat → NodeCfg) (w : World) (n : Nat) :
    Pres cfg (· = n) w (decDep w n) := pres_updNode cfg w n _

theorem pres_cancelTasks (cfg : Nat → NodeCfg) (w : World) (n : Nat) :
    Pres cfg (· = n) w (cancelTasks w n) := pres_updNode cfg w n _

theorem pres_setExit (cfg : Nat → NodeCfg) (w : World) (n : Nat) (fid : Nat) :
    Pres cfg (· = n) w (setExit w n fid) := pres_updNode cfg w n _

theorem pres_ensureExit (cfg : Nat → NodeCfg) (w : World) (n : Nat) :
    Pres cfg (· = n) w (ensureExit w n) := by
  unfold ensureExit
  match (w.nodes n).exitPoint with
  | some _ => exact Pres.id cfg _ w
  | none =>
      refine ⟨rfl, ⟨[], by simp [updNode]⟩, fun m _ ht => ?_⟩
      simp only [updNode]
      simp [ht]

theorem pres_runStartHook (cfg : Nat → NodeCfg) (w : World) (n : Nat) :
    Pres cfg (· = n) w (runStartHook cfg w n).1 := by
  unfold runStartHook
  dsimp only
  split
  · exact ⟨rfl, ⟨[Ev.startHook n], by simp [updNode]⟩,
      fun m _ ht => by simp [updNode, ht]⟩
  · exact ⟨rfl, ⟨[Ev.startHook n], by simp [updNode]⟩,
      fun m _ ht => by simp [updNode, ht]⟩

theorem pres_runStopHook (cfg : Nat → NodeCfg) (w : World) (n : Nat) :
    Pres cfg (· = n) w (runStopHook cfg w n).1 := by
  unfold runStopHook
  dsimp only
  split
  · exact ⟨rfl, ⟨[Ev.stopHook n], by simp [updNode]⟩,
      fun m _ ht => by simp [updNode, ht]⟩
  · exact ⟨rfl, ⟨[Ev.stopHook n], by simp [updNode]⟩,
      fun m _ ht => by simp [updNode, ht]⟩

theorem pres_foldSetExit (cfg : Nat → NodeCfg) (fid : Nat) :
    ∀ (ms : List Nat) (w : World),
      Pres cfg (· ∈ ms) w (ms.foldl (fun w m => setExit w m fid) w) := by
  intro ms
  induction ms with
  | nil => intro w; exact Pres.id cfg _ w
  | cons a as ih =>
      intro w
      refine Pres.trans (Pres.mono ?_ (pres_setExit cfg w a fid))
        (Pres.mono ?_ (ih (setExit w a fid)))
      · intro m _ hm; simp at hm; intro h; exact hm.1 h
      · intro m _ hm; simp at hm; intro h; exact hm.2 h

/-- The simultaneous frame theorem over the whole asyncio interpreter:
every operation leaves the future store untouched, only appends to the
hook log, and leaves every root node other than its direct target
untouched. -/
theorem presAll (cfg : Nat → NodeCfg) (lg : Bool) : ∀ f : Nat,
    (∀ w n w' r, startA cfg lg f w n = some (w', r) →
      Pres cfg (· = n) w w') ∧
    (∀ w n w' r, startDeps cfg lg f w n = some (w', r) →
      Pres cfg (· = n) w w') ∧
    (∀ w fid gs w' r, startGroups cfg lg f w fid gs = some (w', r) →
      Pres cfg (fun m => ∃ g, g ∈ gs ∧ m ∈ g) w w') ∧
    (∀ w fid ms w' r, startGroup cfg lg f w fid ms = some (w', r) →
      Pres cfg (· ∈ ms) w w') ∧
    (∀ w ms acc w' r, startGroupRun cfg lg f w ms acc = some (w', r) →
      Pres cfg (· ∈ ms) w w') ∧
    (∀ w n w' r, stopA cfg lg f w n = some (w', r) →
      Pres cfg (· = n) w w') ∧
    (∀ w n w' r, stopTwoSteps cfg lg f w n = some (w', r) →
      Pres cfg (· = n) w w') ∧
    (∀ w n w' r, stopDeps cfg lg f w n = some (w', r) →
      Pres cfg (· = n) w w') ∧
    (∀ w gs w' r, stopGroups cfg lg f w gs = some (w', r) →
      Pres cfg (fun m => ∃ g, g ∈ gs ∧ m ∈ g) w w') ∧
    (∀ w ms w' r, stopGroup cfg lg f w ms = some (w', r) →
      Pres cfg (· ∈ ms) w w') := by
  intro f
  induction f with
  | zero =>
      refine ⟨?_, ?_, ?_, ?_, ?_, ?_, ?_, ?_, ?_, ?_⟩ <;>
        · intros
          simp_all [startA, startDeps, startGroups, startGroup, startGroupRun,
            stopA, stopTwoSteps, stopDeps, stopGroups, stopGroup]
  | succ f ih =>
      obtain ⟨ihSA, ihSD, ihSGs, ihSG, ihSGR, ihQA, ihQTS, ihQD, ihQGs,
        ihQG⟩ := ih
      have toTgt : ∀ (n : Nat) (t : Nat → Prop), (∀ m, NotADep cfg m → ¬ t m) →
          ∀ {w w'}, Pres cfg t w w' → Pres cfg (· = n) w w' :=
        fun _ _ ht _ _ hp => Pres.mono (fun m hm _ => ht m hm) hp
      have depsKill : ∀ (n : Nat) (m : Nat), NotADep cfg m →
          ¬ ∃ g, g ∈ (cfg n).deps ∧ m ∈ g :=
        fun n m hm ⟨g, hg, hmem⟩ => hm n g hg hmem
      have depsKillRev : ∀ (n : Nat) (m : Nat), NotADep cfg m →
          ¬ ∃ g, g ∈ (cfg n).deps.reverse ∧ m ∈ g :=
        fun n m hm ⟨g, hg, hmem⟩ => hm n g (List.mem_reverse.mp hg) hmem
      refine ⟨?_, ?_, ?_, ?_, ?_, ?_, ?_, ?_, ?_, ?_⟩
      -- startA
      · intro w n w' r h
        simp only [startA] at h
        split at h
        · cases h
          exact pres_bumpDep cfg w n
        · have base : Pres cfg (· = n) w (ensureExit (bumpDep w n) n) :=
            Pres.trans (pres_bumpDep cfg w n) (pres_ensureExit cfg _ n)
          split at h
          -- legacy
          · split at h
            · exact absurd h (by simp)
            · rename_i w3 e heqSD
              cases h
              exact Pres.trans base (ihSD _ _ _ _ heqSD)
            · rename_i w3 heqSD
              have pd : Pres cfg (· = n) (ensureExit (bumpDep w n) n) w3 :=
                ihSD _ _ _ _ heqSD
              split at h
              · rename_i w4 heqH
                cases h
                refine Pres.trans base (Pres.trans pd (Pres.trans ?_
                  (pres_updNode cfg _ n _)))
                have hx := pres_runStartHook cfg w3 n
                rwa [heqH] at hx
              · rename_i w4 e heqH
                have ph : Pres cfg (· = n) w3 w4 := by
                  have hx := pres_runStartHook cfg w3 n
                  rwa [heqH] at hx
                split at h
                · exact absurd h (by simp)
                · rename_i w5 e2 heqQD
                  cases h
                  exact Pres.trans base (Pres.trans pd (Pres.trans ph
                    (ihQD _ _ _ _ heqQD)))
                · rename_i w5 heqQD
                  cases h
                  exact Pres.trans base (Pres.trans pd (Pres.trans ph
                    (ihQD _ _ _ _ heqQD)))
          -- current
          · split at h
            · exact absurd h (by simp)
            · rename_i w3 e heqSD
              have pd : Pres cfg (· = n) (ensureExit (bumpDep w n) n) w3 :=
                ihSD _ _ _ _ heqSD
              split at h
              · exact absurd h (by simp)
              · rename_i w4 e2 heqQD
                cases h
                exact Pres.trans base (Pres.trans pd (ihQD _ _ _ _ heqQD))
              · rename_i w4 heqQD
                cases h
                exact Pres.trans base (Pres.trans pd (ihQD _ _ _ _ heqQD))
            · rename_i w3 heqSD
              have pd : Pres cfg (· = n) (ensureExit (bumpDep w n) n) w3 :=
                ihSD _ _ _ _ heqSD
              split at h
              · rename_i w4 heqH
                cases h
                refine Pres.trans base (Pres.trans pd (Pres.trans ?_
                  (pres_updNode cfg _ n _)))
                have hx := pres_runStartHook cfg w3 n
                rwa [heqH] at hx
              · rename_i w4 e heqH
                have ph : Pres cfg (· = n) w3 w4 := by
                  have hx := pres_runStartHook cfg w3 n
                  rwa [heqH] at hx
                split at h
                · exact absurd h (by simp)
                · rename_i w5 e2 heqQD
                  cases h
                  exact Pres.trans base (Pres.trans pd (Pres.trans ph
                    (ihQD _ _ _ _ heqQD)))
                · rename_i w5 heqQD
                  cases h
                  exact Pres.trans base (Pres.trans pd (Pres.trans ph
                    (ihQD _ _ _ _ heqQD)))
      -- startDeps
      · intro w n w' r h
        simp only [startDeps] at h
        split at h
        · cases h
          exact pres_updNode cfg w n _
        · exact Pres.trans (pres_updNode cfg w n _)
            (toTgt n _ (depsKill n) (ihSGs _ _ _ _ _ h))
      -- startGroups
      · intro w fid gs w' r h
        cases gs with
        | nil =>
            simp only [startGroups] at h
            obtain ⟨rfl, rfl⟩ : w = w' ∧ none = r := by
              simpa [eq_comm] using h
            exact Pres.id cfg _ w
        | cons g gs =>
            simp only [startGroups] at h
            split at h
            · exact absurd h (by simp)
            · rename_i w1 e heq1
              cases h
              exact Pres.mono (fun m hm hx hy => hx ⟨g, by simp, hy⟩)
                (ihSG _ _ _ _ _ heq1)
            · rename_i w1 heq1
              refine Pres.trans
                (Pres.mono (fun m hm hx hy => hx ⟨g, by simp, hy⟩)
                  (ihSG _ _ _ _ _ heq1))
                (Pres.mono (fun m hm hx => ?_) (ihSGs _ _ _ _ _ h))
              rintro ⟨g', hg', hy⟩
              exact hx ⟨g', by simp [hg'], hy⟩
      -- startGroup
      · intro w fid ms w' r h
        simp only [startGroup] at h
        exact Pres.trans (pres_foldSetExit cfg fid ms w)
          (ihSGR _ _ _ _ _ h)
      -- startGroupRun
      · intro w ms acc w' r h
        cases ms with
        | nil =>
            simp only [startGroupRun] at h
            obtain ⟨rfl, rfl⟩ : w = w' ∧ acc = r := by
              simpa [eq_comm] using h
            exact Pres.id cfg _ w
        | cons m ms =>
            simp only [startGroupRun] at h
            split at h
            · exact absurd h (by simp)
            · rename_i w1 r1 heq1
              refine Pres.trans
                (Pres.mono (fun x hx hy hz => hy (by simp [hz]))
                  (ihSA _ _ _ _ heq1))
                (Pres.mono (fun x hx hy hz => hy (by simp [hz]))
                  (ihSGR _ _ _ _ _ h))
      -- stopA
      · intro w n w' r h
        simp only [stopA] at h
        split at h
        · split at h
          · cases h
            exact Pres.trans (pres_decDep cfg w n) (pres_updNode cfg _ n _)
          · exact Pres.trans (pres_decDep cfg w n) (ihQTS _ _ _ _ h)
        · cases h
          exact pres_decDep cfg w n
      -- stopTwoSteps
      · intro w n w' r h
        simp only [stopTwoSteps] at h
        split at h
        · rename_i w2 heqH
          have ph : Pres cfg (· = n)
              (updNode w n (fun s => { s with running := false })) w2 := by
            have hx := pres_runStopHook cfg (updNode w n
              (fun s => { s with running := false })) n
            rwa [heqH] at hx
          split at h
          · exact absurd h (by simp)
          · rename_i w3 e2 heqQD
            cases h
            exact Pres.trans (pres_updNode cfg w n _) (Pres.trans ph
              (ihQD _ _ _ _ heqQD))
          · rename_i w3 heqQD
            cases h
            exact Pres.trans (pres_updNode cfg w n _) (Pres.trans ph
              (Pres.trans (ihQD _ _ _ _ heqQD) (pres_updNode cfg _ n _)))
        · rename_i w2 e heqH
          have ph : Pres cfg (· = n)
              (updNode w n (fun s => { s with running := false })) w2 := by
            have hx := pres_runStopHook cfg (updNode w n
              (fun s => { s with running := false })) n
            rwa [heqH] at hx
          split at h
          · exact absurd h (by simp)
          · rename_i w3 e2 heqQD
            cases h
            exact Pres.trans (pres_updNode cfg w n _) (Pres.trans ph
              (ihQD _ _ _ _ heqQD))
          · rename_i w3 heqQD
            cases h
            exact Pres.trans (pres_updNode cfg w n _) (Pres.trans ph
              (ihQD _ _ _ _ heqQD))
      -- stopDeps
      · intro w n w' r h
        simp only [stopDeps] at h
        split at h
        · cases h
          exact Pres.id cfg _ w
        · exact Pres.trans (pres_cancelTasks cfg w n)
            (toTgt n _ (depsKillRev n) (ihQGs _ _ _ _ h))
      -- stopGroups
      · intro w gs w' r h
        cases gs with
        | nil =>
            simp only [stopGroups] at h
            obtain ⟨rfl, rfl⟩ : w = w' ∧ none = r := by
              simpa [eq_comm] using h
            exact Pres.id cfg _ w
        | cons g gs =>
            simp only [stopGroups] at h
            split at h
            · exact absurd h (by simp)
            · rename_i w1 e heq1
              cases h
              exact Pres.mono (fun m hm hx hy => hx ⟨g, by simp, hy⟩)
                (ihQG _ _ _ _ heq1)
            · rename_i w1 heq1
              refine Pres.trans
                (Pres.mono (fun m hm hx hy => hx ⟨g, by simp, hy⟩)
                  (ihQG _ _ _ _ heq1))
                (Pres.mono (fun m hm hx => ?_) (ihQGs _ _ _ _ h))
              rintro ⟨g', hg', hy⟩
              exact hx ⟨g', by simp [hg'], hy⟩
      -- stopGroup
      · intro w ms w' r h
        cases ms with
        | nil =>
            simp only [stopGroup] at h
            obtain ⟨rfl, rfl⟩ : w = w' ∧ none = r := by
              simpa [eq_comm] using h
            exact Pres.id cfg _ w
        | cons m ms =>
            simp only [stopGroup] at h
            split at h
            · exact absurd h (by simp)
            · rename_i w1 r1 heq1
              split at h
              · exact absurd h (by simp)
              · rename_i w2 r2 heq2
                cases h
                refine Pres.trans
                  (Pres.mono (fun x hx hy hz => hy (by simp [hz]))
                    (ihQA _ _ _ _ heq1))
                  (Pres.mono (fun x hx hy hz => hy (by simp [hz]))
                    (ihQG _ _ _ _ heq2))

/-! ### Corollaries of the frame theorem -/

theorem pres_startA {cfg : Nat → NodeCfg} {lg : Bool} {f : Nat} {w : World}
    {n : Nat} {w' : World} {r : Option PyErr}
    (h : startA cfg lg f w n = some (w', r)) : Pres cfg (· = n) w w' :=
  (presAll cfg lg f).1 w n w' r h

theorem pres_startDeps {cfg : Nat → NodeCfg} {lg : Bool} {f : Nat} {w : World}
    {n : Nat} {w' : World} {r : Option PyErr}
    (h : startDeps cfg lg f w n = some (w', r)) : Pres cfg (· = n) w w' :=
  (presAll cfg lg f).2.1 w n w' r h

theorem pres_startGroups {cfg : Nat → NodeCfg} {lg : Bool} {f : Nat}
    {w : World} {fid : Nat} {gs : List (List Nat)} {w' : World}
    {r : Option PyErr} (h : startGroups cfg lg f w fid gs = some (w', r)) :
    Pres cfg (fun m => ∃ g, g ∈ gs ∧ m ∈ g) w w' :=
  (presAll cfg lg f).2.2.1 w fid gs w' r h

theorem pres_stopA {cfg : Nat → NodeCfg} {lg : Bool} {f : Nat} {w : World}
    {n : Nat} {w' : World} {r : Option PyErr}
    (h : stopA cfg lg f w n = some (w', r)) : Pres cfg (· = n) w w' :=
  (presAll cfg lg f).2.2.2.2.2.1 w n w' r h

theorem pres_stopTwoSteps {cfg : Nat → NodeCfg} {lg : Bool} {f : Nat}
    {w : World} {n : Nat} {w' : World} {r : Option PyErr}
    (h : stopTwoSteps cfg lg f w n = some (w', r)) : Pres cfg (· = n) w w' :=
  (presAll cfg lg f).2.2.2.2.2.2.1 w n w' r h

theorem pres_stopDeps {cfg : Nat → NodeCfg} {lg : Bool} {f : Nat} {w : World}
    {n : Nat} {w' : World} {r : Option PyErr}
    (h : stopDeps cfg lg f w n = some (w', r)) : Pres cfg (· = n) w w' :=
  (presAll cfg lg f).2.2.2.2.2.2.2.1 w n w' r h

theorem pres_stopGroups {cfg : Nat → NodeCfg} {lg : Bool} {f : Nat}
    {w : World} {gs : List (List Nat)} {w' : World} {r : Option PyErr}
    (h : stopGroups cfg lg f w gs = some (w', r)) :
    Pres cfg (fun m => ∃ g, g ∈ gs ∧ m ∈ g) w w' :=
  (presAll cfg lg f).2.2.2.2.2.2.2.2.1 w gs w' r h

theorem notADep_deps {cfg : Nat → NodeCfg} {m : Nat} (n : Nat)
    (hm : NotADep cfg m) : ¬ ∃ g, g ∈ (cfg n).deps ∧ m ∈ g :=
  fun ⟨g, hg, hx⟩ => hm n g hg hx

theorem notADep_depsRev {cfg : Nat → NodeCfg} {m : Nat} (n : Nat)
    (hm : NotADep cfg m) : ¬ ∃ g, g ∈ (cfg n).deps.reverse ∧ m ∈ g :=
  fun ⟨g, hg, hx⟩ => hm n g (List.mem_reverse.mp hg) hx

/-! ### Local characterisations of the hook runners and orchestrator -/

theorem runStartHook_log (cfg : Nat → NodeCfg) (w : World) (n : Nat) :
    ((runStartHook cfg w n).1).log = w.log ++ [Ev.startHook n] := by
  unfold runStartHook
  dsimp only
  split <;> simp [updNode]

theorem runStopHook_log (cfg : Nat → NodeCfg) (w : World) (n : Nat) :
    ((runStopHook cfg w n).1).log = w.log ++ [Ev.stopHook n] := by
  unfold runStopHook
  dsimp only
  split <;> simp [updNode]

theorem runStartHook_node (cfg : Nat → NodeCfg) (w : World) (n : Nat) :
    ((runStartHook cfg w n).1).nodes n =
      if (cfg n).startFailsAt ((w.nodes n).startCalls) then
        { w.nodes n with startCalls := (w.nodes n).startCalls + 1 }
      else
        { w.nodes n with
            startCalls := (w.nodes n).startCalls + 1
            started := true } := by
  unfold runStartHook
  dsimp only
  split <;> rename_i hc <;> simp [updNode, hc]

theorem runStopHook_node (cfg : Nat → NodeCfg) (w : World) (n : Nat) :
    ((runStopHook cfg w n).1).nodes n =
      if (cfg n).stopFailsAt ((w.nodes n).stopCalls) then
        { w.nodes n with stopCalls := (w.nodes n).stopCalls + 1 }
      else
        { w.nodes n with
            stopCalls := (w.nodes n).stopCalls + 1
            stopped := true } := by
  unfold runStopHook
  dsimp only
  split <;> rename_i hc <;> simp [updNode, hc]

theorem runStartHook_err (cfg : Nat → NodeCfg) (w : World) (n : Nat) :
    (runStartHook cfg w n).2 =
      if (cfg n).startFailsAt ((w.nodes n).startCalls) then
        some (.userStart n)
      else none := by
  unfold runStartHook
  dsimp only
  split <;> rename_i hc <;> simp [hc]

theorem runStopHook_err (cfg : Nat → NodeCfg) (w : World) (n : Nat) :
    (runStopHook cfg w n).2 =
      if (cfg n).stopFailsAt ((w.nodes n).stopCalls) then
        some (.userStop n)
      else none := by
  unfold runStopHook
  dsimp only
  split <;> rename_i hc <;> simp [hc]

/-- `__start_dependencies` leaves its own (root) node's state untouched
except for resetting the tracked-task set. -/
theorem startDeps_node {cfg : Nat → NodeCfg} {lg : Bool} {f : Nat}
    {w : World} {n : Nat} {w' : World} {r : Option PyErr}
    (hroot : NotADep cfg n)
    (h : startDeps cfg lg f w n = some (w', r)) :
    w'.nodes n = { w.nodes n with tasksInit := true, tasks := [] } := by
  cases f with
  | zero => exact absurd h (by simp [startDeps])
  | succ f =>
      simp only [startDeps] at h
      split at h
      · cases h
        simp [updNode]
      · rw [(pres_startGroups h).nodes n hroot (notADep_deps n hroot)]
        simp [updNode]

/-- `__stop_dependencies` leaves its own (root) node's state untouched
except for cancelling and flushing the tracked-task set. -/
theorem stopDeps_node {cfg : Nat → NodeCfg} {lg : Bool} {f : Nat}
    {w : World} {n : Nat} {w' : World} {r : Option PyErr}
    (hroot : NotADep cfg n)
    (hti : lg = true ∨ (w.nodes n).tasksInit = true)
    (h : stopDeps cfg lg f w n = some (w', r)) :
    w'.nodes n = { w.nodes n with
                     tasks := []
                     cancelledCount := (w.nodes n).cancelledCount +
                       (w.nodes n).tasks.length } := by
  cases f with
  | zero => exact absurd h (by simp [stopDeps])
  | succ f =>
      simp only [stopDeps] at h
      split at h
      · rename_i hc
        rcases hti with hlg | hi
        · exact absurd hlg hc.1
        · exact absurd hi (by simpa using hc.2)
      · rw [(pres_stopGroups h).nodes n hroot (notADep_depsRev n hroot)]
        simp [cancelTasks, updNode]

theorem updNode_log (w : World) (n : Nat) (f : NodeState → NodeState) :
    (updNode w n f).log = w.log := rfl

theorem updNode_nodes_self (w : World) (n : Nat) (f : NodeState → NodeState) :
    (updNode w n f).nodes n = f (w.nodes n) := by
  simp [updNode]

theorem ensureExit_log (w : World) (n : Nat) :
    (ensureExit w n).log = w.log := by
  unfold ensureExit
  split <;> rfl

theorem ensureExit_node (w : World) (n : Nat) :
    ∃ ep, (ensureExit w n).nodes n = { w.nodes n with exitPoint := ep } := by
  unfold ensureExit
  split
  · exact ⟨(w.nodes n).exitPoint, by simp⟩
  · exact ⟨some w.nextFut, by simp [updNode]⟩

theorem bumpDep_node (w : World) (n : Nat) :
    (bumpDep w n).nodes n =
      { w.nodes n with dependents := (w.nodes n).dependents + 1 } := by
  simp [bumpDep, updNode]

theorem decDep_node (w : World) (n : Nat) :
    (decDep w n).nodes n =
      { w.nodes n with dependents := (w.nodes n).dependents - 1 } := by
  simp [decDep, updNode]

/-! ### NotADep facts for the scenario roots -/

theorem notADep_leaf : NotADep leafCfg 0 := by
  intro a g hg
  simp [leafCfg] at hg

theorem notADep_flaky : NotADep flakyCfg 0 := by
  intro a g hg
  match a with
  | 0 => simp [flakyCfg] at hg
  | _ + 1 => simp [flakyCfg] at hg

theorem notADep_stopFail : NotADep stopFailCfg 0 := by
  intro a g hg
  match a with
  | 0 =>
      simp [stopFailCfg] at hg
      subst hg
      simp
  | _ + 1 => simp [stopFailCfg] at hg

/-! ## Claims -/

/-- Claim C1: in a dependency graph where a node is reachable from the
root via more than one path (the diamond `A = 0 → {B1 = 1, B2 = 2} →
C = 3`), starting the root invokes the shared node's user start hook
exactly once and stopping the root invokes its user stop hook exactly
once; and in general (both in the asyncio and in the blocking variant) a
`start()` call on an already-running node only increments its dependents
count and returns success, touching neither dependencies nor the user
hook — the post-world is exactly the increment. -/
theorem C1_shared_node_starts_once :
    (∀ (cfg : Nat → NodeCfg) (lg : Bool) (f : Nat) (w : World) (n : Nat),
      (w.nodes n).running = true →
      startA cfg lg (f + 1) w n = some (bumpDep w n, none)) ∧
    (∀ (cfg : Nat → NodeCfg) (f : Nat) (w : World) (n : Nat),
      (w.nodes n).running = true →
      startB cfg (f + 1) w n = some (bumpDep w n, none)) ∧
    (diamondStart.isSome = true ∧ outE diamondStart = none ∧
     ((outW diamondStart).nodes 3).startCalls = 1 ∧
     ((outW diamondStart).nodes 1).startCalls = 1 ∧
     ((outW diamondStart).nodes 2).startCalls = 1 ∧
     ((outW diamondStart).nodes 0).startCalls = 1 ∧
     ((outW diamondStart).nodes 3).running = true ∧
     ((outW diamondStart).nodes 3).dependents = 2) ∧
    (diamondCycle.isSome = true ∧ outE diamondCycle = none ∧
     ((outW diamondCycle).nodes 3).stopCalls = 1 ∧
     ((outW diamondCycle).nodes 3).running = false) := by
  refine ⟨?_, ?_, by decide, by decide⟩
  · intro cfg lg f w n h
    have hg : ((bumpDep w n).nodes n).running = true := by
      simp [bumpDep, updNode, h]
    simp [startA, hg]
  · intro cfg f w n h
    have hg : ((bumpDep w n).nodes n).running = true := by
      simp [bumpDep, updNode, h]
    simp [startB, hg]

/-- Witness for C1: the idempotent-start equations applied to a concrete
already-running world. -/
theorem C1_witness :
    (runningW.nodes 0).running = true ∧
    startA leafCfg false 5 runningW 0 = some (bumpDep runningW 0, none) ∧
    startB leafCfg 5 runningW 0 = some (bumpDep runningW 0, none) :=
  ⟨by decide,
   C1_shared_node_starts_once.1 leafCfg false 4 runningW 0 (by decide),
   C1_shared_node_starts_once.2.1 leafCfg 4 runningW 0 (by decide)⟩

/-- Claim C2: `stop()` decrements the dependents count and performs real
shutdown only when the decremented count is exactly zero and the node is
running; otherwise it returns immediately with the decrement as the only
effect.  In the asyncio variant a held guard (within the timeout budget)
enters exactly the real-shutdown path `__stop_two_steps`; the blocking
variant returns immediately under the same condition whenever the count
stays non-negative (the negative-count case is declared a caller error).
Consequently a node held twice is still running with its stop hook not
invoked after the first release, and stops at the second. -/
theorem C2_stop_only_at_zero_count :
    (∀ (cfg : Nat → NodeCfg) (lg : Bool) (f : Nat) (w : World) (n : Nat),
      ¬((w.nodes n).dependents - 1 = 0 ∧ (w.nodes n).running = true) →
      stopA cfg lg (f + 1) w n = some (decDep w n, none)) ∧
    (∀ (cfg : Nat → NodeCfg) (lg : Bool) (f : Nat) (w : World) (n : Nat),
      (w.nodes n).dependents - 1 = 0 → (w.nodes n).running = true →
      (cfg n).shutdownDur ≤ (cfg n).gst →
      stopA cfg lg (f + 1) w n = stopTwoSteps cfg lg f (decDep w n) n) ∧
    (∀ (cfg : Nat → NodeCfg) (f : Nat) (w : World) (n : Nat),
      1 ≤ (w.nodes n).dependents →
      ¬((w.nodes n).dependents - 1 = 0 ∧ (w.nodes n).running = true) →
      stopB cfg (f + 1) w n = some (decDep w n, none)) ∧
    (holdRelease1.isSome = true ∧ outE holdRelease1 = none ∧
     ((outW holdRelease1).nodes 0).running = true ∧
     ((outW holdRelease1).nodes 0).dependents = 1 ∧
     ((outW holdRelease1).nodes 0).stopCalls = 0) ∧
    (holdRelease2.isSome = true ∧ outE holdRelease2 = none ∧
     ((outW holdRelease2).nodes 0).running = false ∧
     ((outW holdRelease2).nodes 0).dependents = 0 ∧
     ((outW holdRelease2).nodes 0).stopCalls = 1) := by
  refine ⟨?_, ?_, ?_, by decide, by decide⟩
  · intro cfg lg f w n h
    have hc : ¬(((decDep w n).nodes n).dependents = 0 ∧
        ((decDep w n).nodes n).running = true) := by
      simpa [decDep, updNode] using h
    simp [stopA, hc]
  · intro cfg lg f w n h1 h2 h3
    have hc : ((decDep w n).nodes n).dependents = 0 ∧
        ((decDep w n).nodes n).running = true := by
      simp [decDep, updNode, h1, h2]
    have ht : ¬((cfg n).gst < (cfg n).shutdownDur) := not_lt.mpr h3
    simp [stopA, hc, ht]
  · intro cfg f w n h1 h2
    have hd : 0 < ((decDep w n).nodes n).dependents ∨
        ¬((decDep w n).nodes n).running = true := by
      simp only [decDep_node]
      by_cases hr : (w.nodes n).running = true
      · left
        have hne : (w.nodes n).dependents - 1 ≠ 0 := fun hz => h2 ⟨hz, hr⟩
        omega
      · right
        simpa using hr
    simp only [stopB]
    rw [if_pos hd]

/-- Witness for C2: the three stop equations applied to concrete held
and running worlds. -/
theorem C2_witness :
    stopA leafCfg false 5 heldW 0 = some (decDep heldW 0, none) ∧
    stopA leafCfg false 5 runningW 0 =
      stopTwoSteps leafCfg false 4 (decDep runningW 0) 0 ∧
    stopB leafCfg 5 heldW 0 = some (decDep heldW 0, none) :=
  ⟨C2_stop_only_at_zero_count.1 leafCfg false 4 heldW 0 (by decide),
   C2_stop_only_at_zero_count.2.1 leafCfg false 4 runningW 0 (by decide)
     (by decide) (by decide),
   C2_stop_only_at_zero_count.2.2.1 leafCfg 4 heldW 0 (by decide) (by decide)⟩

/-- Counterexample to claim C3 as stated: the claim covers the legacy
flat-module `ServiceMixin.__start` (facet.py lines 60-76), but there
`__start_dependencies` is awaited before the `try`, so a failing
dependency start does not run the dependency stop step.  With the groups
`[[1], [2], [3]]` where node `2` always fails to start, the failing
start of root `0` leaves node `1` started, still running and never
stopped — the claim requires it to be started-then-stopped and not
running. -/
theorem C3_counterexample_legacy_rollback :
    rollbackRunLegacy.isSome = true ∧
    outE rollbackRunLegacy = some (.userStart 2) ∧
    ((outW rollbackRunLegacy).nodes 1).started = true ∧
    ((outW rollbackRunLegacy).nodes 1).running = true ∧
    ((outW rollbackRunLegacy).nodes 1).stopCalls = 0 ∧
    ((outW rollbackRunLegacy).nodes 1).stopped = false := by decide

/-- Claim C3 (amended): in the current asyncio variant and in the
blocking variant, a failure of either the dependency start step or the
user start hook runs the dependency stop step: dependencies of
already-completed groups end up started-then-stopped, later groups are
never started, the original failure is re-raised, and the node is left
not running.  In the legacy flat-module variant this rollback fires only
when the user start hook fails; a dependency-start failure propagates
without running the dependency stop step. -/
theorem C3_partial_start_rollback :
    (rollbackRun.isSome = true ∧
     outE rollbackRun = some (.userStart 2) ∧
     ((outW rollbackRun).nodes 1).started = true ∧
     ((outW rollbackRun).nodes 1).stopCalls = 1 ∧
     ((outW rollbackRun).nodes 1).stopped = true ∧
     ((outW rollbackRun).nodes 1).running = false ∧
     ((outW rollbackRun).nodes 3).startCalls = 0 ∧
     ((outW rollbackRun).nodes 3).started = false ∧
     ((outW rollbackRun).nodes 0).running = false) ∧
    (rollbackRunBlocking.isSome = true ∧
     outE rollbackRunBlocking = some (.userStart 2) ∧
     ((outW rollbackRunBlocking).nodes 1).started = true ∧
     ((outW rollbackRunBlocking).nodes 1).stopCalls = 1 ∧
     ((outW rollbackRunBlocking).nodes 1).stopped = true ∧
     ((outW rollbackRunBlocking).nodes 1).running = false ∧
     ((outW rollbackRunBlocking).nodes 3).startCalls = 0 ∧
     ((outW rollbackRunBlocking).nodes 0).running = false) ∧
    (hookFailRun.isSome = true ∧
     outE hookFailRun = some (.userStart 0) ∧
     ((outW hookFailRun).nodes 1).started = true ∧
     ((outW hookFailRun).nodes 1).stopped = true ∧
     ((outW hookFailRun).nodes 1).running = false ∧
     ((outW hookFailRun).nodes 0).running = false) ∧
    (hookFailRunLegacy.isSome = true ∧
     outE hookFailRunLegacy = some (.userStart 0) ∧
     ((outW hookFailRunLegacy).nodes 1).started = true ∧
     ((outW hookFailRunLegacy).nodes 1).stopped = true ∧
     ((outW hookFailRunLegacy).nodes 1).running = false ∧
     ((outW hookFailRunLegacy).nodes 0).running = false) := by
  refine ⟨by decide, by decide, by decide, by decide⟩

/-- Claim C4: dependency groups start strictly in declared order and stop
in reverse declared order; a node's own user start hook runs only after
all its dependency groups have fully started — in the log it is the last
event of a successful start — and its user stop hook runs before any
dependency group begins stopping — in the log it is the first event of
the real-shutdown path.  On the diamond, the hook logs are exactly
`C, B1, B2, A` for start and `A, B2, B1, C` for stop. -/
theorem C4_order_and_hook_position :
    (∀ (cfg : Nat → NodeCfg) (lg : Bool) (f : Nat) (w : World) (n : Nat)
        (w' : World),
      (w.nodes n).running = false →
      startA cfg lg (f + 1) w n = some (w', none) →
      ∃ L, w'.log = w.log ++ L ++ [Ev.startHook n]) ∧
    (∀ (cfg : Nat → NodeCfg) (lg : Bool) (f : Nat) (w : World) (n : Nat)
        (w' : World) (r : Option PyErr),
      stopTwoSteps cfg lg (f + 1) w n = some (w', r) →
      ∃ L, w'.log = w.log ++ [Ev.stopHook n] ++ L) ∧
    (outW diamondStart).log =
      [Ev.startHook 3, Ev.startHook 1, Ev.startHook 2, Ev.startHook 0] ∧
    (outW diamondCycle).log =
      [Ev.startHook 3, Ev.startHook 1, Ev.startHook 2, Ev.startHook 0,
       Ev.stopHook 0, Ev.stopHook 2, Ev.stopHook 1, Ev.stopHook 3] := by
  refine ⟨?_, ?_, by decide, by decide⟩
  · intro cfg lg f w n w' hr h
    simp only [startA] at h
    have hg : ¬(((bumpDep w n).nodes n).running = true) := by
      simp [bumpDep, updNode, hr]
    rw [if_neg hg] at h
    have hlogBase : (ensureExit (bumpDep w n) n).log = w.log := by
      rw [ensureExit_log]
      rfl
    split at h <;>
    · split at h
      · exact absurd h (by simp)
      · rename_i w3 e heqSD
        first
        | exact absurd h (by simp)
        | (split at h
           · exact absurd h (by simp)
           · exact absurd h (by simp)
           · exact absurd h (by simp))
      · rename_i w3 heqSD
        split at h
        · rename_i w4 heqH
          cases h
          obtain ⟨L1, hL1⟩ := (pres_startDeps heqSD).log
          have h4 : w4.log = w3.log ++ [Ev.startHook n] := by
            have hx := runStartHook_log cfg w3 n
            rwa [heqH] at hx
          refine ⟨L1, ?_⟩
          rw [updNode_log, h4, hL1, hlogBase, List.append_assoc]
        · rename_i w4 e heqH
          split at h
          · exact absurd h (by simp)
          · exact absurd h (by simp)
          · exact absurd h (by simp)
  · intro cfg lg f w n w' r h
    simp only [stopTwoSteps] at h
    have hflip : (updNode w n
        (fun s => { s with running := false })).log = w.log := updNode_log _ _ _
    split at h
    · rename_i w2 heqH
      have h2log : w2.log = w.log ++ [Ev.stopHook n] := by
        have hx := runStopHook_log cfg
          (updNode w n (fun s => { s with running := false })) n
        rw [heqH] at hx
        rwa [hflip] at hx
      split at h
      · exact absurd h (by simp)
      · rename_i w3 e2 heqQD
        cases h
        obtain ⟨L2, hL2⟩ := (pres_stopDeps heqQD).log
        exact ⟨L2, by rw [hL2, h2log, List.append_assoc]⟩
      · rename_i w3 heqQD
        cases h
        obtain ⟨L2, hL2⟩ := (pres_stopDeps heqQD).log
        exact ⟨L2, by rw [updNode_log, hL2, h2log, List.append_assoc]⟩
    · rename_i w2 e heqH
      have h2log : w2.log = w.log ++ [Ev.stopHook n] := by
        have hx := runStopHook_log cfg
          (updNode w n (fun s => { s with running := false })) n
        rw [heqH] at hx
        rwa [hflip] at hx
      split at h
      · exact absurd h (by simp)
      · rename_i w3 e2 heqQD
        cases h
        obtain ⟨L2, hL2⟩ := (pres_stopDeps heqQD).log
        exact ⟨L2, by rw [hL2, h2log, List.append_assoc]⟩
      · rename_i w3 heqQD
        cases h
        obtain ⟨L2, hL2⟩ := (pres_stopDeps heqQD).log
        exact ⟨L2, by rw [hL2, h2log, List.append_assoc]⟩

/-- Witness for C4: the hook-position facts applied to a concrete
successful start (the leaf node from the fresh world) and a concrete
real-shutdown run. -/
theorem C4_witness :
    ((W0.nodes 0).running = false ∧
     ∃ L, (outW leafStart).log = W0.log ++ L ++ [Ev.startHook 0]) ∧
    ∃ L, (outW (stopTwoSteps leafCfg false 5 runningW 0)).log =
      runningW.log ++ [Ev.stopHook 0] ++ L :=
  ⟨⟨by decide, C4_order_and_hook_position.1 leafCfg false 19 W0 0
      (outW leafStart) (by decide) rfl⟩,
   C4_order_and_hook_position.2.1 leafCfg false 4 runningW 0
     (outW (stopTwoSteps leafCfg false 5 runningW 0))
     (outE (stopTwoSteps leafCfg false 5 runningW 0)) rfl⟩

/-- Claim C5: when a member of a concurrently-started group fails, the
re-raised failure is the first captured one (earliest completion time,
creation order breaking ties, and minimal among all failures); every
member still outstanding at that moment ends cancelled; members that
already completed successfully stay completed (the orchestrator itself
rolls nothing back); and every member has settled into a terminal state
by the time the failure is re-raised (the settled list covers all
members).  In the full model, a parallel group `[broken, valid]` under a
root still leaves `valid` started and then rolled back by the enclosing
controller: started-then-stopped. -/
theorem C5_group_member_failure_policy :
    (∀ (ts : List ATask) (tf : Nat), firstFailTime ts = some tf →
      ∃ t, t ∈ ts ∧ t.dur = tf ∧ t.res.isSome = true ∧
        (waitCancelOnFail ts).2 = t.res ∧
        ∀ t', t' ∈ ts → t'.res.isSome = true → tf ≤ t'.dur) ∧
    (∀ (ts : List ATask) (tf i : Nat) (hi : i < ts.length),
      firstFailTime ts = some tf → tf < ts[i].dur →
      (waitCancelOnFail ts).1[i]? = some .cancelled) ∧
    (∀ (ts : List ATask) (tf i : Nat) (hi : i < ts.length),
      firstFailTime ts = some tf → ts[i].res = none → ts[i].dur ≤ tf →
      (waitCancelOnFail ts).1[i]? = some (.completed none)) ∧
    (∀ ts : List ATask, ((waitCancelOnFail ts).1).length = ts.length) ∧
    (parallelRun.isSome = true ∧
     outE parallelRun = some (.userStart 1) ∧
     ((outW parallelRun).nodes 2).started = true ∧
     ((outW parallelRun).nodes 2).stopped = true ∧
     ((outW parallelRun).nodes 2).running = false ∧
     ((outW parallelRun).nodes 0).running = false) := by
  refine ⟨?_, ?_, ?_, ?_, by decide⟩
  · intro ts tf htf
    have htf' := htf
    unfold firstFailTime at htf
    have hm := List.min?_eq_some_iff'.mp htf
    obtain ⟨t1, ht1mem, ht1⟩ := List.mem_filterMap.mp hm.1
    have ht1some : t1.res.isSome = true := by
      by_contra hc
      simp [hc] at ht1
    have hfind : ∃ t0, ts.find? (fun t => t.res.isSome && t.dur = tf)
        = some t0 := by
      rw [← Option.isSome_iff_exists]
      rw [List.find?_isSome]
      refine ⟨t1, ht1mem, ?_⟩
      rw [if_pos ht1some] at ht1
      simp only [Option.some.injEq] at ht1
      simp [ht1some, ht1]
    obtain ⟨t0, ht0⟩ := hfind
    have ht0mem := List.mem_of_find?_eq_some ht0
    have ht0pred := List.find?_some ht0
    rw [Bool.and_eq_true] at ht0pred
    have ht0dur : t0.dur = tf := by
      have := ht0pred.2
      simpa using this
    refine ⟨t0, ht0mem, ht0dur, ht0pred.1, ?_, ?_⟩
    · have hw : waitCancelOnFail ts =
          (ts.map fun t =>
            if t.dur ≤ tf then .completed t.res else .cancelled,
           firstFailure ts) := by
        unfold waitCancelOnFail
        rw [htf']
      rw [hw]
      have hf : firstFailure ts = t0.res := by
        unfold firstFailure
        rw [htf']
        show (match List.find? (fun t => t.res.isSome && decide (t.dur = tf))
            ts with
          | some t => t.res
          | none => none) = t0.res
        rw [ht0]
      exact hf
    · intro t' ht'mem ht'some
      refine hm.2 t'.dur (List.mem_filterMap.mpr ⟨t', ht'mem, ?_⟩)
      simp [ht'some]
  · intro ts tf i hi htf hdur
    simp only [waitCancelOnFail, htf]
    rw [List.getElem?_map, List.getElem?_eq_getElem hi]
    simp [not_le.mpr hdur]
  · intro ts tf i hi htf hres hdur
    simp only [waitCancelOnFail, htf]
    rw [List.getElem?_map, List.getElem?_eq_getElem hi]
    simp [hdur, hres]
  · intro ts
    unfold waitCancelOnFail
    split <;> simp

/-- Witness for C5 at the concrete timed group
`[fail@5, ok@3, ok@9, fail@5]`: the first captured failure is the first
listed failure at time 5, the member still outstanding at time 9 is
cancelled, the member that succeeded at time 3 stays completed, and all
four members settle. -/
theorem C5_witness :
    (∃ t, t ∈ [ATask.mk 5 (some (.taskErr 1)), ATask.mk 3 none,
               ATask.mk 9 none, ATask.mk 5 (some (.taskErr 2))] ∧
      t.dur = 5 ∧ t.res.isSome = true ∧
      (waitCancelOnFail [ATask.mk 5 (some (.taskErr 1)), ATask.mk 3 none,
        ATask.mk 9 none, ATask.mk 5 (some (.taskErr 2))]).2 = t.res ∧
      ∀ t', t' ∈ [ATask.mk 5 (some (.taskErr 1)), ATask.mk 3 none,
        ATask.mk 9 none, ATask.mk 5 (some (.taskErr 2))] →
        t'.res.isSome = true → 5 ≤ t'.dur) ∧
    (waitCancelOnFail [ATask.mk 5 (some (.taskErr 1)), ATask.mk 3 none,
      ATask.mk 9 none, ATask.mk 5 (some (.taskErr 2))]).1[2]? =
      some .cancelled ∧
    (waitCancelOnFail [ATask.mk 5 (some (.taskErr 1)), ATask.mk 3 none,
      ATask.mk 9 none, ATask.mk 5 (some (.taskErr 2))]).1[1]? =
      some (.completed none) ∧
    ((waitCancelOnFail [ATask.mk 5 (some (.taskErr 1)), ATask.mk 3 none,
      ATask.mk 9 none, ATask.mk 5 (some (.taskErr 2))]).1).length = 4 :=
  ⟨C5_group_member_failure_policy.1 _ 5 (by decide),
   C5_group_member_failure_policy.2.1 _ 5 2 (by decide) (by decide)
     (by decide),
   C5_group_member_failure_policy.2.2.1 _ 5 1 (by decide) (by decide)
     (by decide) (by decide),
   C5_group_member_failure_policy.2.2.2.1 _⟩

/-- Counterexample to claim C6 as stated: the claim asserts that after a
failing user stop hook the termination signal is cleared, but
`self.__exit_point = None` sits after the `try/finally` of
`__stop_two_steps` (asyncio.py line 99), so the re-raised hook failure
skips it: stopping the concrete failing node leaves its exit point still
set while the failure is re-raised. -/
theorem C6_counterexample_signal_not_cleared :
    stopFailRun.isSome = true ∧
    outE stopFailRun = some (.userStop 0) ∧
    ((outW stopFailRun).nodes 0).exitPoint = some 0 := by decide

/-- Claim C6 (amended): if the user stop hook raises during real
shutdown, tracked-task cancellation and the dependency stop step still
run to completion, a failure is re-raised to the caller after teardown
completes (the hook's own failure when teardown succeeded), and `running`
is false — but the termination signal is NOT cleared; it is cleared only
when the whole shutdown sequence completes without raising.  The concrete
scenario re-raises the hook's own failure after cancelling both tracked
tasks and stopping the dependency. -/
theorem C6_stop_hook_failure_teardown :
    (∀ (cfg : Nat → NodeCfg) (lg : Bool) (f : Nat) (w : World) (n : Nat)
        (w' : World) (r : Option PyErr),
      NotADep cfg n →
      (lg = true ∨ (w.nodes n).tasksInit = true) →
      (cfg n).stopFailsAt ((w.nodes n).stopCalls) = true →
      stopTwoSteps cfg lg (f + 1) w n = some (w', r) →
      r.isSome = true ∧
      (w'.nodes n).running = false ∧
      (w'.nodes n).exitPoint = (w.nodes n).exitPoint ∧
      (w'.nodes n).tasks = [] ∧
      (w'.nodes n).cancelledCount =
        (w.nodes n).cancelledCount + (w.nodes n).tasks.length) ∧
    (stopFailRun.isSome = true ∧
     outE stopFailRun = some (.userStop 0) ∧
     ((outW stopFailRun).nodes 0).exitPoint = some 0 ∧
     ((outW stopFailRun).nodes 0).tasks = List.nil ∧
     ((outW stopFailRun).nodes 0).cancelledCount = 2 ∧
     ((outW stopFailRun).nodes 0).running = false ∧
     ((outW stopFailRun).nodes 1).running = false ∧
     ((outW stopFailRun).nodes 1).stopCalls = 1) := by
  refine ⟨?_, by decide⟩
  intro cfg lg f w n w' r hroot hti hfail h
  simp only [stopTwoSteps] at h
  split at h
  · rename_i w2 heqH
    exfalso
    have he := runStopHook_err cfg
      (updNode w n (fun s => { s with running := false })) n
    rw [heqH] at he
    simp [updNode_nodes_self, hfail] at he
  · rename_i w2 e heqH
    have hx := runStopHook_node cfg
      (updNode w n (fun s => { s with running := false })) n
    rw [heqH] at hx
    simp only [updNode_nodes_self] at hx
    simp [hfail] at hx
    have hti2 : lg = true ∨ (w2.nodes n).tasksInit = true := by
      rcases hti with hl | ht
      · exact Or.inl hl
      · right
        rw [hx]
        exact ht
    split at h
    · exact absurd h (by simp)
    · rename_i w3 e2 heqQD
      cases h
      have hq := stopDeps_node hroot hti2 heqQD
      refine ⟨rfl, ?_, ?_, ?_, ?_⟩ <;> rw [hq] <;> simp [hx]
    · rename_i w3 heqQD
      cases h
      have hq := stopDeps_node hroot hti2 heqQD
      refine ⟨rfl, ?_, ?_, ?_, ?_⟩ <;> rw [hq] <;> simp [hx]

/-- Witness for C6: the teardown-still-runs facts applied to the concrete
started world of the stop-failing node (two tracked tasks, one
dependency). -/
theorem C6_witness :
    (outE (stopTwoSteps stopFailCfg false 20 stopFailW 0)).isSome = true ∧
    ((outW (stopTwoSteps stopFailCfg false 20 stopFailW 0)).nodes 0).running
      = false ∧
    ((outW (stopTwoSteps stopFailCfg false 20 stopFailW 0)).nodes 0).exitPoint
      = (stopFailW.nodes 0).exitPoint ∧
    ((outW (stopTwoSteps stopFailCfg false 20 stopFailW 0)).nodes 0).tasks
      = List.nil ∧
    ((outW (stopTwoSteps stopFailCfg false 20 stopFailW 0)).nodes
        0).cancelledCount =
      (stopFailW.nodes 0).cancelledCount + (stopFailW.nodes 0).tasks.length :=
  C6_stop_hook_failure_teardown.1 stopFailCfg false 19 stopFailW 0
    (outW (stopTwoSteps stopFailCfg false 20 stopFailW 0))
    (outE (stopTwoSteps stopFailCfg false 20 stopFailW 0))
    notADep_stopFail (Or.inr (by decide)) (by decide) rfl

/-- Counterexample to claim C7 as stated: the claim covers the legacy
`ServiceMixin.__task_callback` (facet.py lines 101-106), but that
callback never removes the task from the tracked list, and it calls
`set_exception` without checking `done()`: a failure arriving after the
signal has already resolved raises `InvalidStateError` instead of being
discarded. -/
theorem C7_counterexample_legacy_callback :
    taskCallbackLegacy [7] 7 (.failed (.taskErr 1)) (some (.exc (.taskErr 0)))
      = .error .invalidState ∧
    taskCallbackLegacy [7] 7 .cancelled (some .pending) =
      .ok ([7], some .pending) := ⟨rfl, rfl⟩

/-- Claim C7 (amended): in the current asyncio variant the done-callback
removes the completed task from the tracked set regardless of outcome; a
cancelled task propagates no failure (the exit point is untouched); a
failure arriving while the termination signal is pending resolves it with
that failure; and a failure arriving after the signal is already resolved
is discarded without being raised (first-failure-wins).  In the legacy
flat-module variant the first and last parts fail (see the
counterexample); there the callback leaves the tracked list unchanged and
raises `InvalidStateError` on an already-resolved signal. -/
theorem C7_task_callback_first_failure_wins :
    (∀ (ts : List Nat) (tid : Nat) (out : TOutcome) (exit : Option FutState)
        (res : List Nat × Option FutState),
      taskCallback (some ts) tid out exit = .ok res → res.1 = ts.erase tid) ∧
    (∀ (ts : List Nat) (tid : Nat) (exit : Option FutState),
      taskCallback (some ts) tid .cancelled exit = .ok (ts.erase tid, exit)) ∧
    (∀ (ts : List Nat) (tid : Nat) (e : PyErr),
      taskCallback (some ts) tid (.failed e) (some .pending) =
        .ok (ts.erase tid, some (.exc e))) ∧
    (∀ (ts : List Nat) (tid : Nat) (e : PyErr) (fut : FutState),
      fut.done = true →
      taskCallback (some ts) tid (.failed e) (some fut) =
        .ok (ts.erase tid, some fut)) := by
  refine ⟨?_, ?_, ?_, ?_⟩
  · intro ts tid out exit res h
    cases out with
    | cancelled =>
        simp only [taskCallback] at h
        cases h
        rfl
    | ok =>
        cases exit with
        | none => simp [taskCallback] at h
        | some fut =>
            simp only [taskCallback] at h
            cases h
            rfl
    | failed e =>
        cases exit with
        | none => simp [taskCallback] at h
        | some fut =>
            simp only [taskCallback] at h
            by_cases hd : fut.done = true
            · rw [if_pos hd] at h
              cases h
              rfl
            · rw [if_neg hd] at h
              cases h
              rfl
  · intro ts tid exit
    simp [taskCallback]
  · intro ts tid e
    simp [taskCallback, FutState.done]
  · intro ts tid e fut hd
    simp [taskCallback, hd]

/-- Witness for C7: removal and first-failure-wins at concrete inputs —
a successful task is erased from the singleton tracked list, and a late
failure on an already-resolved signal is discarded (the signal keeps its
first failure). -/
theorem C7_witness :
    (([], some FutState.pending) : List Nat × Option FutState).1 =
      [7].erase 7 ∧
    (FutState.exc (.taskErr 0)).done = true ∧
    taskCallback (some [7]) 7 (.failed (.taskErr 1))
        (some (.exc (.taskErr 0))) =
      .ok ([7].erase 7, some (.exc (.taskErr 0))) :=
  ⟨C7_task_callback_first_failure_wins.1 [7] 7 .ok (some .pending)
     ([], some .pending) rfl,
   by decide,
   C7_task_callback_first_failure_wins.2.2.2 [7] 7 (.taskErr 1)
     (.exc (.taskErr 0)) (by decide)⟩

/-- Claim C8: the real-shutdown path of `__stop` is bounded by the
node's `graceful_shutdown_timeout`, whose default is 10; exceeding the
bound fails the stop call with a timeout error, and `running` was flipped
to false before the hook ran, so a timed-out node is never observed
running.  Concretely, the node whose shutdown takes 11 of its default 10
time-units stops with `timeoutError`, not running, its stop hook never
having completed. -/
theorem C8_shutdown_timeout :
    ({} : NodeCfg).gst = 10 ∧
    (∀ (cfg : Nat → NodeCfg) (lg : Bool) (f : Nat) (w : World) (n : Nat),
      (w.nodes n).dependents - 1 = 0 → (w.nodes n).running = true →
      (cfg n).gst < (cfg n).shutdownDur →
      stopA cfg lg (f + 1) w n =
        some (updNode (decDep w n) n (fun s => { s with running := false }),
              some .timeoutError)) ∧
    (∀ (cfg : Nat → NodeCfg) (lg : Bool) (f : Nat) (w : World) (n : Nat),
      (w.nodes n).dependents - 1 = 0 → (w.nodes n).running = true →
      (cfg n).gst < (cfg n).shutdownDur →
      ((outW (stopA cfg lg (f + 1) w n)).nodes n).running = false) ∧
    (slowRun.isSome = true ∧
     outE slowRun = some .timeoutError ∧
     ((outW slowRun).nodes 0).running = false ∧
     ((outW slowRun).nodes 0).stopCalls = 0 ∧
     ((outW slowRun).nodes 0).dependents = 0) := by
  have key : ∀ (cfg : Nat → NodeCfg) (lg : Bool) (f : Nat) (w : World)
      (n : Nat),
      (w.nodes n).dependents - 1 = 0 → (w.nodes n).running = true →
      (cfg n).gst < (cfg n).shutdownDur →
      stopA cfg lg (f + 1) w n =
        some (updNode (decDep w n) n (fun s => { s with running := false }),
              some .timeoutError) := by
    intro cfg lg f w n h1 h2 h3
    have hc : ((decDep w n).nodes n).dependents = 0 ∧
        ((decDep w n).nodes n).running = true := by
      simp [decDep, updNode, h1, h2]
    simp [stopA, hc, h3]
  refine ⟨rfl, key, ?_, by decide⟩
  intro cfg lg f w n h1 h2 h3
  rw [key cfg lg f w n h1 h2 h3]
  simp [outW, updNode]

/-- Witness for C8: the timeout equations applied to the concrete
running single-holder world under the slow-shutdown configuration. -/
theorem C8_witness :
    stopA slowCfg false 5 runningW 0 =
      some (updNode (decDep runningW 0) 0
              (fun s => { s with running := false }),
            some .timeoutError) ∧
    ((outW (stopA slowCfg false 5 runningW 0)).nodes 0).running = false :=
  ⟨C8_shutdown_timeout.2.1 slowCfg false 4 runningW 0 (by decide) (by decide)
     (by decide),
   C8_shutdown_timeout.2.2.1 slowCfg false 4 runningW 0 (by decide)
     (by decide) (by decide)⟩

/-- Counterexample to claim C9 as stated: the cycle of the dependency-free
node ends without any failure, yet its termination signal (future 0) is
never resolved — `__stop_two_steps` merely sets the `__exit_point`
reference to `None` (asyncio.py line 99) and nothing in the source ever
calls `set_result` — so a caller already blocked in `wait()` on that
future stays blocked after the successful stop instead of being
unblocked. -/
theorem C9_counterexample_wait_not_unblocked :
    outE leafStart = none ∧
    ((outW leafStart).nodes 0).exitPoint = some 0 ∧
    (outW leafStart).futs 0 = .pending ∧
    leafCycle.isSome = true ∧
    outE leafCycle = none ∧
    (outW leafCycle).futs 0 = .pending ∧
    ((outW leafCycle).nodes 0).exitPoint = none ∧
    awaitFut (outW leafCycle) 0 = .blocked := by decide

/-- Claim C9 (amended): the termination signal never resolves
successfully: neither `__start` nor `__stop` writes any future (a clean
cycle discards the pending signal by clearing the reference), and the
only resolution point in the source, the task done-callback, writes only
exceptions — it can output a successfully-resolved signal only if it was
given one.  Hence a caller blocked in `wait()` is not unblocked by a
clean stop; the signal resolves (and `wait` returns) only on a captured
failure. -/
theorem C9_signal_never_resolves_successfully :
    (∀ (cfg : Nat → NodeCfg) (lg : Bool) (f : Nat) (w : World) (n : Nat)
        (w' : World) (r : Option PyErr),
      startA cfg lg f w n = some (w', r) → w'.futs = w.futs) ∧
    (∀ (cfg : Nat → NodeCfg) (lg : Bool) (f : Nat) (w : World) (n : Nat)
        (w' : World) (r : Option PyErr),
      stopA cfg lg f w n = some (w', r) → w'.futs = w.futs) ∧
    (∀ (tasks : Option (List Nat)) (tid : Nat) (out : TOutcome)
        (exit : Option FutState) (res : List Nat × Option FutState),
      taskCallback tasks tid out exit = .ok res →
      res.2 = some .resolvedOk → exit = some .resolvedOk) ∧
    ((outW leafCycle).futs 0 = .pending ∧
     awaitFut (outW leafCycle) 0 = .blocked ∧
     outE leafCycle = none) := by
  refine ⟨?_, ?_, ?_, by decide⟩
  · intro cfg lg f w n w' r h
    exact (pres_startA h).futs
  · intro cfg lg f w n w' r h
    exact (pres_stopA h).futs
  · intro tasks tid out exit res h hres
    cases tasks with
    | none => simp [taskCallback] at h
    | some ts =>
      cases out with
      | cancelled =>
          simp only [taskCallback] at h
          cases h
          exact hres
      | ok =>
          cases exit with
          | none => simp [taskCallback] at h
          | some fut =>
              simp only [taskCallback] at h
              cases h
              exact hres
      | failed e =>
          cases exit with
          | none => simp [taskCallback] at h
          | some fut =>
              simp only [taskCallback] at h
              by_cases hd : fut.done = true
              · rw [if_pos hd] at h
                cases h
                exact hres
              · rw [if_neg hd] at h
                cases h
                simp at hres

/-- Witness for C9: the no-resolution facts applied to the concrete
clean cycle of the leaf node and to a concrete callback call. -/
theorem C9_witness :
    (outW leafStart).futs = W0.futs ∧
    (outW leafCycle).futs = (outW leafStart).futs ∧
    (some FutState.resolvedOk : Option FutState) = some .resolvedOk :=
  ⟨C9_signal_never_resolves_successfully.1 leafCfg false 20 W0 0
     (outW leafStart) (outE leafStart) rfl,
   C9_signal_never_resolves_successfully.2.1 leafCfg false 20
     (outW leafStart) 0 (outW leafCycle) (outE leafCycle) rfl,
   C9_signal_never_resolves_successfully.2.2.1 (some []) 0 .ok
     (some .resolvedOk) ([], some .resolvedOk) rfl rfl⟩

theorem runStartHook_preserves (cfg : Nat → NodeCfg) (w : World) (n : Nat) :
    (((runStartHook cfg w n).1).nodes n).running = (w.nodes n).running ∧
    (((runStartHook cfg w n).1).nodes n).dependents =
      (w.nodes n).dependents ∧
    (((runStartHook cfg w n).1).nodes n).tasksInit =
      (w.nodes n).tasksInit := by
  rw [runStartHook_node]
  split <;> exact ⟨rfl, rfl, rfl⟩

/-- Claim C10: if `start()` raises then afterwards `running` is false but
the dependents count keeps the increment performed by the failed call (it
is not restored) — proved for any root node (a node that is nobody's
declared dependency, i.e. one whose start/stop only its own caller
drives) in the asyncio variant, and replayed concretely in both variants:
after one failed start, a successful start followed by a single matching
stop leaves the count at one and does not trigger real shutdown. -/
theorem C10_failed_start_keeps_increment :
    (∀ (cfg : Nat → NodeCfg) (lg : Bool) (f : Nat) (w : World) (n : Nat)
        (w' : World) (e : PyErr),
      NotADep cfg n →
      startA cfg lg f w n = some (w', some e) →
      (w'.nodes n).running = false ∧
      (w'.nodes n).dependents = (w.nodes n).dependents + 1) ∧
    (outE flakyRun1 = some (.userStart 0) ∧
     ((outW flakyRun1).nodes 0).running = false ∧
     ((outW flakyRun1).nodes 0).dependents = 1 ∧
     ((outW flakyRun1).nodes 0).startCalls = 1) ∧
    (flakyRun3.isSome = true ∧ outE flakyRun3 = none ∧
     ((outW flakyRun3).nodes 0).running = true ∧
     ((outW flakyRun3).nodes 0).dependents = 1 ∧
     ((outW flakyRun3).nodes 0).stopCalls = 0 ∧
     ((outW flakyRun3).nodes 0).startCalls = 2) ∧
    (outE flakyRunB1 = some (.userStart 0) ∧
     ((outW flakyRunB1).nodes 0).running = false ∧
     ((outW flakyRunB1).nodes 0).dependents = 1) ∧
    (flakyRunB3.isSome = true ∧ outE flakyRunB3 = none ∧
     ((outW flakyRunB3).nodes 0).running = true ∧
     ((outW flakyRunB3).nodes 0).dependents = 1 ∧
     ((outW flakyRunB3).nodes 0).stopCalls = 0) := by
  refine ⟨?_, by decide, by decide, by decide, by decide⟩
  intro cfg lg f w n w' e hroot h
  cases f with
  | zero => exact absurd h (by simp [startA])
  | succ f =>
    simp only [startA] at h
    split at h
    · exact absurd h (by simp)
    · rename_i hg
      rw [bumpDep_node] at hg
      have hrun0 : (w.nodes n).running = false := by
        revert hg
        show ¬ (w.nodes n).running = true → (w.nodes n).running = false
        exact fun hx => Bool.not_eq_true _ |>.mp hx
      obtain ⟨ep, hep⟩ := ensureExit_node (bumpDep w n) n
      have h2run : ((ensureExit (bumpDep w n) n).nodes n).running = false := by
        rw [hep, bumpDep_node]
        exact hrun0
      have h2dep : ((ensureExit (bumpDep w n) n).nodes n).dependents =
          (w.nodes n).dependents + 1 := by
        rw [hep, bumpDep_node]
      split at h
      -- legacy
      · split at h
        · exact absurd h (by simp)
        · rename_i w3 e1 heqSD
          cases h
          have hsd := startDeps_node hroot heqSD
          constructor
          · rw [hsd]
            exact h2run
          · rw [hsd]
            exact h2dep
        · rename_i w3 heqSD
          have hsd := startDeps_node hroot heqSD
          split at h
          · exact absurd h (by simp)
          · rename_i w4 e1 heqH
            have hpres := runStartHook_preserves cfg w3 n
            rw [heqH] at hpres
            have h4run : (w4.nodes n).running = (w3.nodes n).running :=
              hpres.1
            have h4dep : (w4.nodes n).dependents = (w3.nodes n).dependents :=
              hpres.2.1
            have h4ti : (w4.nodes n).tasksInit = (w3.nodes n).tasksInit :=
              hpres.2.2
            have hti4 : lg = true ∨ (w4.nodes n).tasksInit = true := by
              right
              rw [h4ti, hsd]
            split at h
            · exact absurd h (by simp)
            · rename_i w5 e2 heqQD
              cases h
              have hqd := stopDeps_node hroot hti4 heqQD
              constructor
              · rw [hqd]
                show (w4.nodes n).running = false
                rw [h4run, hsd]
                exact h2run
              · rw [hqd]
                show (w4.nodes n).dependents = (w.nodes n).dependents + 1
                rw [h4dep, hsd]
                exact h2dep
            · rename_i w5 heqQD
              cases h
              have hqd := stopDeps_node hroot hti4 heqQD
              constructor
              · rw [hqd]
                show (w4.nodes n).running = false
                rw [h4run, hsd]
                exact h2run
              · rw [hqd]
                show (w4.nodes n).dependents = (w.nodes n).dependents + 1
                rw [h4dep, hsd]
                exact h2dep
      -- current
      · split at h
        · exact absurd h (by simp)
        · rename_i w3 e1 heqSD
          have hsd := startDeps_node hroot heqSD
          have hti3 : lg = true ∨ (w3.nodes n).tasksInit = true := by
            right
            rw [hsd]
          split at h
          · exact absurd h (by simp)
          · rename_i w4 e2 heqQD
            cases h
            have hqd := stopDeps_node hroot hti3 heqQD
            constructor
            · rw [hqd, hsd]
              exact h2run
            · rw [hqd, hsd]
              exact h2dep
          · rename_i w4 heqQD
            cases h
            have hqd := stopDeps_node hroot hti3 heqQD
            constructor
            · rw [hqd, hsd]
              exact h2run
            · rw [hqd, hsd]
              exact h2dep
        · rename_i w3 heqSD
          have hsd := startDeps_node hroot heqSD
          split at h
          · exact absurd h (by simp)
          · rename_i w4 e1 heqH
            have hpres := runStartHook_preserves cfg w3 n
            rw [heqH] at hpres
            have h4run : (w4.nodes n).running = (w3.nodes n).running :=
              hpres.1
            have h4dep : (w4.nodes n).dependents = (w3.nodes n).dependents :=
              hpres.2.1
            have h4ti : (w4.nodes n).tasksInit = (w3.nodes n).tasksInit :=
              hpres.2.2
            have hti4 : lg = true ∨ (w4.nodes n).tasksInit = true := by
              right
              rw [h4ti, hsd]
            split at h
            · exact absurd h (by simp)
            · rename_i w5 e2 heqQD
              cases h
              have hqd := stopDeps_node hroot hti4 heqQD
              constructor
              · rw [hqd]
                show (w4.nodes n).running = false
                rw [h4run, hsd]
                exact h2run
              · rw [hqd]
                show (w4.nodes n).dependents = (w.nodes n).dependents + 1
                rw [h4dep, hsd]
                exact h2dep
            · rename_i w5 heqQD
              cases h
              have hqd := stopDeps_node hroot hti4 heqQD
              constructor
              · rw [hqd]
                show (w4.nodes n).running = false
                rw [h4run, hsd]
                exact h2run
              · rw [hqd]
                show (w4.nodes n).dependents = (w.nodes n).dependents + 1
                rw [h4dep, hsd]
                exact h2dep

/-- Witness for C10: the kept-increment fact applied to the concrete
first (failing) start of the flaky node from the fresh world. -/
theorem C10_witness :
    ((outW flakyRun1).nodes 0).running = false ∧
    ((outW flakyRun1).nodes 0).dependents = (W0.nodes 0).dependents + 1 :=
  C10_failed_start_keeps_increment.1 flakyCfg false 20 W0 0
    (outW flakyRun1) (.userStart 0) notADep_flaky rfl
